import Mathlib

/-!
Verification development for the garden task-graph scheduler, template/config
context resolution, provider action dispatch and config graph construction.

The definitions in the first half of this file are shallow embeddings of the
TypeScript sources (src/garden-service/src/task-graph.ts,
src/garden-service/src/config/config-context.ts, src/garden-service/src/garden.ts,
src/garden-service/src/tasks/resolve-config.ts and the template-string module).
JavaScript objects with string keys are modelled as insertion-ordered
association lists with set-in-place update semantics; thrown exceptions are
modelled with Except / explicit error results; asynchronous scheduling is
modelled as a small-step transition relation whose individual steps are the
serialised pump operations of the scheduler (add, start, complete, fail,
loop entry).  All recursion is fuelled or structural, so every definition is
executable.
-/

namespace Garden

/-- TaskResult record as used by the scheduler and its result cache
(task-graph.ts lines 25-37, restricted to the fields the verified
properties depend on: identity, timestamps and the error flag). -/
structure TaskResultM where
  tType : String
  baseKey : String
  key : String
  iid : Nat
  hasError : Bool
  startedAt : Nat
  completedAt : Nat
deriving DecidableEq, Repr

/-- MAX_CACHE_SIZE constant (task-graph.ts line 60). -/
def MAX_CACHE_SIZE : Nat := 1000

/-- CACHE_CLEANUP_RATIO applied to MAX_CACHE_SIZE with Math.floor
(task-graph.ts lines 61 and 608): floor(1000 * 0.8) = 800. -/
def cleanupCount : Nat := 800

/-- ResultCache state: a JavaScript object keyed by result key (modelled as an
insertion-ordered association list whose keys stay unique), plus the length
counter that ResultCache.put increments (task-graph.ts lines 571-578). -/
structure ResultCache where
  entries : List TaskResultM
  length : Nat
deriving DecidableEq, Repr

/-- Empty result cache (ResultCache constructor, task-graph.ts lines 575-578). -/
def emptyCache : ResultCache := { entries := [], length := 0 }

/-- JavaScript object assignment this.cache[result.key] = result: replace the
existing entry with the same key in place, otherwise append. -/
def cacheSetList (r : TaskResultM) : List TaskResultM → List TaskResultM
  | [] => [r]
  | x :: xs => if x.key = r.key then r :: xs else x :: cacheSetList r xs

/-- Stable insertion of a result into a list sorted ascending by completedAt,
inserting after all entries whose completedAt is at most the new one.  Used to
model lodash sortBy(..., "completedAt"), which is a stable ascending sort. -/
def insertByCompleted (r : TaskResultM) : List TaskResultM → List TaskResultM
  | [] => [r]
  | x :: xs =>
    if x.completedAt ≤ r.completedAt then x :: insertByCompleted r xs
    else r :: x :: xs

/-- Stable ascending sort by completedAt (lodash sortBy in
task-graph.ts line 609). -/
def sortByCompletedAt (l : List TaskResultM) : List TaskResultM :=
  l.foldl (fun acc r => insertByCompleted r acc) []

/-- ResultCache.cleanup (task-graph.ts lines 606-614): sort the cached results
ascending by completedAt, take the slice from index cleanupCount (= 800)
onwards — which is the newest fifth of the entries — and delete those keys
from the cache.  The iterated JavaScript delete over distinct keys is the
filter that keeps every entry whose key is not among the deleted ones. -/
def cacheCleanupList (l : List TaskResultM) : List TaskResultM :=
  let expired := (sortByCompletedAt l).drop cleanupCount
  l.filter (fun e => e.key ∉ expired.map (fun x => x.key))

/-- ResultCache.cleanup acting on the cache record (the length counter is not
touched by cleanup in the source). -/
def cacheCleanup (c : ResultCache) : ResultCache :=
  { c with entries := cacheCleanupList c.entries }

/-- ResultCache.put (task-graph.ts lines 580-586): store under result.key,
increment the length counter, and run cleanup when the counter reaches
MAX_CACHE_SIZE. -/
def cachePut (r : TaskResultM) (c : ResultCache) : ResultCache :=
  let entries := cacheSetList r c.entries
  let len := c.length + 1
  if MAX_CACHE_SIZE ≤ len then cacheCleanup { entries := entries, length := len }
  else { entries := entries, length := len }

/-- ResultCache.get (task-graph.ts lines 588-591): look the key up and return
the entry only when it is present, carries the same key, and has no error. -/
def cacheGet (c : ResultCache) (k : String) : Option TaskResultM :=
  match c.entries.find? (fun r => r.key = k) with
  | some r => if r.key = k ∧ r.hasError = false then some r else none
  | none => none

/-- Key used by the C6 analysis: distinct strings, one per index, whose
injectivity is visible through String.mk. -/
def natKey (i : Nat) : String := String.mk (List.replicate i 'k')

/-- Concrete cache entry number i: key natKey i, completedAt i. -/
def mkEntry (i : Nat) : TaskResultM :=
  { tType := "test", baseKey := "test.t", key := natKey i, iid := i,
    hasError := false, startedAt := i, completedAt := i }

/-- A full cache population: n entries in submission order, with strictly
increasing completedAt timestamps (entry i completed at time i). -/
def cachePopulation (n : Nat) : List TaskResultM :=
  (List.range n).map mkEntry

/-- Primitive config values (config/common.ts isPrimitive: string, number or
boolean). -/
inductive Prim where
  | s : String → Prim
  | n : Int → Prim
  | b : Bool → Prim
deriving DecidableEq, Repr

/-- JavaScript truthiness of a primitive, as used by the memo check
`if (resolved) return resolved` (config-context.ts line 65). -/
def Prim.truthy : Prim → Bool
  | Prim.s v => v ≠ ""
  | Prim.n v => v ≠ 0
  | Prim.b v => v

/-- JavaScript String(...) conversion used when joining resolved template
parts (template-string resolveTemplateString joins parts with ""). -/
def Prim.asString : Prim → String
  | Prim.s v => v
  | Prim.n v => v.repr
  | Prim.b v => if v then "true" else "false"

/-- One segment of a template string: literal text or a dotted-path reference
produced by the template grammar.  Modelled from the spec: the pegjs grammar
file itself is not under src, but part_001 (resolveTemplateString) documents
that a template string is literal text interleaved with simple dotted-path
lookups resolved via context.resolve with nodePath []. -/
inductive TPart where
  | lit : String → TPart
  | ref : List String → TPart
deriving DecidableEq, Repr

/-- Values reachable inside a ConfigContext tree: JavaScript numbers and
booleans, strings (every string value is potentially templated and is passed
through resolveTemplateString, config-context.ts lines 111-115), lazy
callables (invoked once per lookup step, lines 98-101), and nested contexts
(lines 103-109).  A nested context carries the identity of its
per-instance _resolvedValues memo and its own entries. -/
inductive CVal where
  | num : Int → CVal
  | bool : Bool → CVal
  | str : List TPart → CVal
  | lazyv : CVal → CVal
  | child : Nat → List (String × CVal) → CVal

/-- A ConfigContext instance: the identity of its private _resolvedValues
memo plus its entries (own enumerable fields / Map entries). -/
structure CtxM where
  cid : Nat
  entries : List (String × CVal)

/-- Association lookup in a context's entries (value[nextKey] or
Map.get(nextKey), config-context.ts line 95). -/
def alookupCV (entries : List (String × CVal)) (k : String) : Option CVal :=
  match entries.find? (fun e => e.1 = k) with
  | some e => some e.2
  | none => none

/-- The combined _resolvedValues stores of all context instances, keyed by
(context identity, dotted path). -/
structure MemoSt where
  entries : List (Nat × String × Prim)
deriving DecidableEq, Repr

/-- Empty memo state (fresh context instances). -/
def emptyMemo : MemoSt := { entries := [] }

/-- Lookup this._resolvedValues[path] for the context instance cid. -/
def memoLookup (st : MemoSt) (cid : Nat) (path : String) : Option Prim :=
  match st.entries.find? (fun e => e.1 = cid ∧ e.2.1 = path) with
  | some e => some e.2.2
  | none => none

/-- Assignment this._resolvedValues[path] = value (config-context.ts
line 141), with JavaScript object set-in-place semantics. -/
def memoSetList (cid : Nat) (path : String) (v : Prim) :
    List (Nat × String × Prim) → List (Nat × String × Prim)
  | [] => [(cid, path, v)]
  | e :: es =>
    if e.1 = cid ∧ e.2.1 = path then (cid, path, v) :: es
    else e :: memoSetList cid path v es

/-- Memo assignment on the combined store. -/
def memoSet (st : MemoSt) (cid : Nat) (path : String) (v : Prim) : MemoSt :=
  { entries := memoSetList cid path v st.entries }

/-- Errors raised by context resolution (exceptions in config-context.ts):
the circular-reference error carries the failing path and the resolution
stack rendered into its message (line 73); keyNotFound is the missing-key
error (line 123); notPrimitive the non-primitive error (line 131).
outOfFuel marks exhaustion of the recursion budget of the embedding and
corresponds to no real behaviour of terminating runs. -/
inductive CErr where
  | circular : String → List String → CErr
  | keyNotFound : String → CErr
  | notPrimitive : String → CErr
  | outOfFuel : CErr
deriving DecidableEq, Repr

/-- Value held by the local variable `value` during the key-walking loop of
ConfigContext.resolve: either a raw context value, or a primitive produced
by template resolution or a nested context's resolve. -/
inductive WVal where
  | raw : CVal → WVal
  | res : Prim → WVal

/-- Property access step of the loop: `value instanceof Map ?
value.get(nextKey) : value[nextKey]` (config-context.ts line 95).  Only
context nodes have our keys as properties; every other value (including a
primitive or a function) yields undefined. -/
def propLookup : WVal → String → Option CVal
  | WVal.raw (CVal.child _ entries), k => alookupCV entries k
  | _, _ => none

/-- Conversion performed by the post-loop isPrimitive check
(config-context.ts lines 130-139).  A WVal.raw CVal.str cannot reach the
post-loop position: every string value is resolved to a WVal.res inside the
loop before the loop can end. -/
def asPrim : WVal → Option Prim
  | WVal.res p => some p
  | WVal.raw (CVal.num v) => some (Prim.n v)
  | WVal.raw (CVal.bool v) => some (Prim.b v)
  | WVal.raw _ => none

/-- Dotted join of a key path (key.join("."), config-context.ts line 59). -/
def dotted (key : List String) : String := String.intercalate "." key

/-- The memo short-circuit of ConfigContext.resolve (config-context.ts
lines 62-67): a previously stored value is returned only when truthy. -/
def memoHit (st : MemoSt) (cid : Nat) (path : String) : Option Prim :=
  match memoLookup st cid path with
  | some v => if v.truthy then some v else none
  | none => none

/-- The nextKey.startsWith("_") privacy test (config-context.ts line 92):
true exactly when the first character is an underscore. -/
def underscorePrefixed (k : String) : Bool :=
  match k.data with
  | [] => false
  | c :: _ => c = '_'

mutual

/-- ConfigContext.resolve (config-context.ts lines 58-143).  The memo check
of lines 62-67 happens before anything else (in particular before the cycle
check and without consuming recursion fuel), and returns only truthy stored
values.  After a memo miss: the circular-reference check against the stack
(lines 69-80), the key-walking loop (lines 83-120, resolveWalk below), the
undefined and primitive checks and the memo store (lines 122-142).  root is
the _rootContext; cur is the instance being resolved.  The fuel argument
bounds the recursion depth of the embedding and is not part of the source;
every terminating run of the source corresponds to a large enough fuel. -/
def resolveC (root : CtxM) (cur : CtxM) (key : List String) (nodePath : List String)
    (stack : List String) (st : MemoSt) (fuel : Nat) : Except CErr Prim × MemoSt :=
  match fuel, memoHit st cur.cid (dotted key) with
  | _, some v => (Except.ok v, st)
  | 0, none => (Except.error CErr.outOfFuel, st)
  | Nat.succ f, none =>
      if String.intercalate "." (nodePath ++ key) ∈ stack then
        (Except.error (CErr.circular (dotted key) stack), st)
      else
        match resolveWalk root (WVal.raw (CVal.child cur.cid cur.entries)) [] key nodePath stack st f with
        | (Except.error e, st1) => (Except.error e, st1)
        | (Except.ok none, st1) => (Except.error (CErr.keyNotFound (dotted key)), st1)
        | (Except.ok (some w), st1) =>
          match asPrim w with
          | some p => (Except.ok p, memoSet st1 cur.cid (dotted key) p)
          | none => (Except.error (CErr.notPrimitive (dotted key)), st1)
termination_by structural fuel

/-- The for-loop of ConfigContext.resolve (lines 85-120): done holds the
key segments already consumed, rest the remaining ones, and value the
running JavaScript value.  Underscore-prefixed keys resolve to undefined
(line 92); a function value is invoked once (lines 98-101); a nested
context is resolved recursively with the stack entry pushed, ending the
loop (lines 103-109); a string is template-resolved against the root
context with the stack entry pushed (lines 111-115); an undefined value
ends the loop (lines 117-119). -/
def resolveWalk (root : CtxM) (value : WVal) (done rest nodePath stack : List String)
    (st : MemoSt) (fuel : Nat) : Except CErr (Option WVal) × MemoSt :=
  match fuel with
  | 0 => (Except.error CErr.outOfFuel, st)
  | Nat.succ f =>
    match rest with
    | [] => (Except.ok (some value), st)
    | nextKey :: remainder =>
      let taken := done ++ [nextKey]
      let nestedNodePath := nodePath ++ taken
      let stackEntry := String.intercalate "." nestedNodePath
      let v1 : Option CVal :=
        if underscorePrefixed nextKey then none else propLookup value nextKey
      let v2 : Option CVal :=
        match v1 with
        | some (CVal.lazyv x) => some x
        | other => other
      match v2 with
      | some (CVal.child cid entries) =>
        match resolveC root (CtxM.mk cid entries) remainder nestedNodePath (stack ++ [stackEntry]) st f with
        | (Except.error e, st1) => (Except.error e, st1)
        | (Except.ok p, st1) => (Except.ok (some (WVal.res p)), st1)
      | some (CVal.str parts) =>
        match resolveTS root parts (stack ++ [stackEntry]) st f with
        | (Except.error e, st1) => (Except.error e, st1)
        | (Except.ok sres, st1) =>
          resolveWalk root (WVal.res (Prim.s sres)) taken remainder nodePath (stack ++ [stackEntry]) st1 f
      | none => (Except.ok none, st)
      | some v => resolveWalk root (WVal.raw v) taken remainder nodePath stack st f
termination_by structural fuel

/-- resolveTemplateString (part_001 lines 56-72), specialised to the parsed
template: each reference part is resolved through the root context with
nodePath [] and the current resolution stack threaded through (the stack /
opts parameter whose purpose part_001 lines 53-55 document), and the
resolved parts are joined into a single string. -/
def resolveTS (root : CtxM) (parts : List TPart) (stack : List String)
    (st : MemoSt) (fuel : Nat) : Except CErr String × MemoSt :=
  match fuel with
  | 0 => (Except.error CErr.outOfFuel, st)
  | Nat.succ f =>
    match parts with
    | [] => (Except.ok "", st)
    | TPart.lit sLit :: restP =>
      match resolveTS root restP stack st f with
      | (Except.error e, st1) => (Except.error e, st1)
      | (Except.ok s2, st1) => (Except.ok (sLit ++ s2), st1)
    | TPart.ref k :: restP =>
      match resolveC root root k [] stack st f with
      | (Except.error e, st1) => (Except.error e, st1)
      | (Except.ok p, st1) =>
        match resolveTS root restP stack st1 f with
        | (Except.error e, st2) => (Except.error e, st2)
        | (Except.ok s2, st2) => (Except.ok (p.asString ++ s2), st2)
termination_by structural fuel

end

/-- The two-key circular configuration of the claim: a = "${b}" and
b = "${a}" on a single context. -/
def ctxAB : CtxM :=
  CtxM.mk 0 [("a", CVal.str [TPart.ref ["b"]]), ("b", CVal.str [TPart.ref ["a"]])]

/-- Context with a single falsy (empty string) value. -/
def ctxEmptyStr : CtxM := CtxM.mk 0 [("a", CVal.str [TPart.lit ""])]

/-- Context with a single truthy string value. -/
def ctxTruthyStr : CtxM := CtxM.mk 0 [("a", CVal.str [TPart.lit "x"])]

/-- Generic JavaScript object assignment obj[k] = v on a string-keyed
object modelled as an insertion-ordered association list: replace in place
when the key exists, append otherwise. -/
def objSet {α : Type} (k : String) (v : α) : List (String × α) → List (String × α)
  | [] => [(k, v)]
  | e :: es => if e.1 = k then (k, v) :: es else e :: objSet k v es

/-- Generic JavaScript object read obj[k]. -/
def objGet {α : Type} (l : List (String × α)) (k : String) : Option α :=
  match l.find? (fun e => e.1 = k) with
  | some e => some e.2
  | none => none

/-- An installed action handler: the wrapped function of
Garden.addActionHandler carries its pluginName and actionType as
properties (garden.ts lines 414-419). -/
structure HandlerM where
  pluginName : String
  actionType : String
deriving DecidableEq, Repr

/-- Errors thrown by the dispatch code of garden.ts.  The noHandlerError
constructor is the NoHandlerError of the specification's error taxonomy; it
is part of the vocabulary so the claim about it can be stated, but no code
path of garden.ts produces it. -/
inductive GardenErr where
  | configurationError : String → GardenErr
  | pluginError : String → GardenErr
  | parameterError : String → GardenErr
  | noHandlerError : String → GardenErr
deriving DecidableEq, Repr

/-- The plugin/handler registry state of a Garden instance: loadedPlugins
(garden.ts line 355) and the actionHandlers dispatch table, a JavaScript
object keyed by action type whose values are objects keyed by plugin name
in registration order (garden.ts lines 128, 183, 421). -/
structure GardenH where
  loadedPlugins : List String
  actionHandlers : List (String × List (String × HandlerM))
  environmentName : String
deriving DecidableEq, Repr

/-- Garden.getPlugin (garden.ts lines 395-406): look the plugin up among the
loaded plugins, throwing a PluginError when missing. -/
def getPluginH (g : GardenH) (pluginName : String) : Except GardenErr Unit :=
  if pluginName ∈ g.loadedPlugins then Except.ok ()
  else Except.error (GardenErr.pluginError
    ("Could not find plugin " ++ pluginName ++ ". Are you missing a provider configuration?"))

/-- Garden.addActionHandler (garden.ts lines 408-422): install the wrapped
handler, carrying its pluginName and actionType, into
actionHandlers[actionType][pluginName]. -/
def addActionHandlerH (g : GardenH) (pluginName acty : String) : GardenH :=
  let inner := (objGet g.actionHandlers acty).getD []
  { g with actionHandlers :=
      objSet acty (objSet pluginName (HandlerM.mk pluginName acty) inner) g.actionHandlers }

/-- The handler-installing part of Garden.loadPlugin (garden.ts lines 355 and
369-374): the plugin is recorded as loaded and each declared plugin action
handler is installed via addActionHandler. -/
def loadPluginH (g : GardenH) (pluginName : String) (actionTypes : List String) : GardenH :=
  let g1 := { g with loadedPlugins := g.loadedPlugins ++ [pluginName] }
  actionTypes.foldl (fun acc acty => addActionHandlerH acc pluginName acty) g1

/-- Garden.filterActionHandlers (garden.ts lines 730-741): when a pluginName
is given, first ensure the plugin is loaded (getPlugin), then keep only the
handlers whose pluginName property matches; with no pluginName return the
handler object unchanged (an undefined object is replaced by an empty
one). -/
def filterActionHandlersH (g : GardenH) (handlers : Option (List (String × HandlerM)))
    (pluginName : Option String) : Except GardenErr (List (String × HandlerM)) :=
  match pluginName with
  | some pn =>
    match getPluginH g pn with
    | Except.error e => Except.error e
    | Except.ok _ => Except.ok ((handlers.getD []).filter (fun e => e.2.pluginName = pn))
  | none => Except.ok (handlers.getD [])

/-- Garden.getActionHandlers (garden.ts lines 716-718). -/
def getActionHandlersH (g : GardenH) (acty : String) (pluginName : Option String) :
    Except GardenErr (List (String × HandlerM)) :=
  filterActionHandlersH g (objGet g.actionHandlers acty) pluginName

/-- Name of the default provider (config/project.ts line 166), assigned to
the pluginName property of a defaultHandler before it is returned
(garden.ts line 756). -/
def defaultProviderName : String := "_default"

/-- Garden.getActionHandler (garden.ts lines 746-775): take the values of
the (optionally plugin-filtered) handler object; return the last one when
any exist; otherwise return the caller-supplied defaultHandler with its
pluginName set to the default provider; otherwise throw a PluginError when
a pluginName was given and a ParameterError when not. -/
def getActionHandlerH (g : GardenH) (acty : String) (pluginName : Option String)
    (defaultHandler : Option HandlerM) : Except GardenErr HandlerM :=
  match getActionHandlersH g acty pluginName with
  | Except.error e => Except.error e
  | Except.ok handlers =>
    match (handlers.map (fun e => e.2)).getLast? with
    | some h => Except.ok h
    | none =>
      match defaultHandler with
      | some dh => Except.ok { dh with pluginName := defaultProviderName }
      | none =>
        match pluginName with
        | some pn => Except.error (GardenErr.pluginError
            ("Plugin " ++ pn ++ " does not have a " ++ acty ++ " handler."))
        | none => Except.error (GardenErr.parameterError
            ("No " ++ acty ++ " handler configured in environment " ++ g.environmentName ++
             ". Are you missing a provider configuration?"))

/-- A garden with two loaded plugins both providing the prepareEnvironment
handler, and no handler at all for cleanupEnvironment (the configuration of
the dispatch tests). -/
def gardenTwoPlugins : GardenH :=
  loadPluginH (loadPluginH (GardenH.mk [] [] "local") "test-plugin" ["prepareEnvironment"])
    "test-plugin-b" ["prepareEnvironment"]

/-- Generic association-list read, for keys with decidable equality. -/
def alGet {κ α : Type} [DecidableEq κ] (l : List (κ × α)) (k : κ) : Option α :=
  match l.find? (fun e => e.1 = k) with
  | some e => some e.2
  | none => none

/-- Generic association-list set-in-place (JavaScript object assignment). -/
def alSet {κ α : Type} [DecidableEq κ] (k : κ) (v : α) : List (κ × α) → List (κ × α)
  | [] => [(k, v)]
  | e :: es => if e.1 = k then (k, v) :: es else e :: alSet k v es

/-- ServiceConfig as consumed by ConfigGraph (name and runtime dependency
names). -/
structure ServiceConfigM where
  name : String
  dependencies : List String
deriving DecidableEq, Repr

/-- TaskConfig as consumed by ConfigGraph. -/
structure TaskConfigM where
  name : String
  dependencies : List String
deriving DecidableEq, Repr

/-- TestConfig as consumed by ConfigGraph. -/
structure TestConfigM where
  name : String
  dependencies : List String
deriving DecidableEq, Repr

/-- A declared build dependency (name plus optional plugin qualifier). -/
structure BuildDepM where
  name : String
  plugin : Option String
deriving DecidableEq, Repr

/-- Module as consumed by the ConfigGraph constructor
(resolve-config.ts lines 203-228). -/
structure ModuleM where
  name : String
  plugin : Option String
  buildDeps : List BuildDepM
  serviceConfigs : List ServiceConfigM
  taskConfigs : List TaskConfigM
  testConfigs : List TestConfigM
deriving DecidableEq, Repr

/-- Whether a character list contains two adjacent dashes. -/
def charsHaveDoubleDash : List Char → Bool
  | c1 :: c2 :: rest =>
    if c1 = '-' ∧ c2 = '-' then true else charsHaveDoubleDash (c2 :: rest)
  | _ => false

/-- Modelled from the spec: getModuleKey of types/module.ts (the file is not
under src; resolve-config.ts line 161 imports it).  Per the spec's type-aware
key composition, a plugin-owned module name is prefixed with the plugin name
and a double dash unless the name is already prefixed. -/
def getModuleKey (name : String) (plugin : Option String) : String :=
  match plugin with
  | some p => if charsHaveDoubleDash name.data then name else p ++ "--" ++ name
  | none => name

/-- A ConfigGraph node (resolve-config.ts lines 566-579): type, name, owning
module name, and the dependency/dependant adjacency lists.  The source
stores node pointers; since nodes are uniquely indexed by their
(type, name) key (nodeKey, line 623), the adjacency lists here store those
keys. -/
structure CGNodeM where
  ntype : String
  name : String
  moduleName : String
  dependencies : List (String × String)
  dependants : List (String × String)
deriving DecidableEq, Repr

/-- The state built by the ConfigGraph constructor: the node index and the
service/task/test registries (resolve-config.ts lines 195-210). -/
structure CGState where
  index : List ((String × String) × CGNodeM)
  moduleMap : List (String × ModuleM)
  serviceMap : List (String × (String × Option String × ServiceConfigM))
  taskMap : List (String × (String × Option String × TaskConfigM))
  testConfigMap : List (String × TestConfigM)
  testConfigModuleMap : List (String × String)
deriving DecidableEq, Repr

/-- The empty graph state (constructor initialisation, lines 204-210). -/
def cgEmpty : CGState :=
  CGState.mk [] [] [] [] [] []

/-- Errors raised during graph construction: ConfigurationError for the
explicit name-collision throws, and the JavaScript TypeError raised by
reading the property module of an undefined map entry. -/
inductive GraphErr where
  | configurationError : String → GraphErr
  | typeError : String → GraphErr
deriving DecidableEq, Repr

/-- Message of the TypeError raised when taskMap[depName] is undefined and
.module is read from it (resolve-config.ts lines 262, 301 and 319). -/
def cgUndefinedModuleMsg : String :=
  "Cannot read property module of undefined"

/-- ConfigGraph.getNode (resolve-config.ts lines 540-550): idempotent fetch
or create of the node for (type, name). -/
def cgGetNode (st : CGState) (t n modName : String) : CGState × CGNodeM :=
  match alGet st.index (t, n) with
  | some node => (st, node)
  | none =>
    let node := CGNodeM.mk t n modName [] []
    ({ st with index := alSet (t, n) node st.index }, node)

/-- Apply an update to the indexed node with the given key. -/
def cgUpdateNode (st : CGState) (k : String × String) (f : CGNodeM → CGNodeM) : CGState :=
  { st with index := st.index.map (fun e => if e.1 = k then (e.1, f e.2) else e) }

/-- Idempotent push used by ConfigGraphNode.addDependency and addDependant
(resolve-config.ts lines 582-595): append the key unless already present. -/
def pushUniqueKey (l : List (String × String)) (k : String × String) : List (String × String) :=
  if k ∈ l then l else l ++ [k]

/-- ConfigGraph.addRelation (resolve-config.ts lines 530-537): ensure the
dependency node exists, then link dependant and dependency both ways. -/
def cgAddRelation (st : CGState) (depdant : String × String)
    (depType depName depModuleName : String) : CGState :=
  let st1 := (cgGetNode st depType depName depModuleName).1
  let st2 := cgUpdateNode st1 depdant
    (fun nd => { nd with dependencies := pushUniqueKey nd.dependencies (depType, depName) })
  cgUpdateNode st2 (depType, depName)
    (fun nd => { nd with dependants := pushUniqueKey nd.dependants depdant })

/-- The runtime-dependency loop shared verbatim by addService (lines
258-264), addTask (lines 297-303) and addTest (lines 315-321): for each
declared dependency name, link to the service with that name when the
serviceMap knows it, and otherwise link to the task with that name reading
this.taskMap[depName].module — a JavaScript TypeError when the taskMap does
not know the name either, because property module is read from
undefined. -/
def cgAddDepRelations (st : CGState) (depdant : String × String) :
    List String → Except GraphErr CGState
  | [] => Except.ok st
  | depName :: rest =>
    match alGet st.serviceMap depName with
    | some sv =>
      cgAddDepRelations
        (cgAddRelation st depdant "service" depName (getModuleKey sv.1 sv.2.1)) depdant rest
    | none =>
      match alGet st.taskMap depName with
      | some tk =>
        cgAddDepRelations
          (cgAddRelation st depdant "task" depName (getModuleKey tk.1 tk.2.1)) depdant rest
      | none => Except.error (GraphErr.typeError cgUndefinedModuleMsg)

/-- ConfigGraph.addService (resolve-config.ts lines 235-265): duplicate
service names raise a ConfigurationError; otherwise the service is
registered, its node created, the build relation added, and the dependency
loop run. -/
def cgAddService (st : CGState) (m : ModuleM) (moduleKey : String)
    (svc : ServiceConfigM) : Except GraphErr CGState :=
  match alGet st.serviceMap svc.name with
  | some _ => Except.error (GraphErr.configurationError
      ("Service names must be unique - " ++ svc.name ++ " is declared multiple times"))
  | none =>
    let st1 := { st with serviceMap := alSet svc.name (m.name, m.plugin, svc) st.serviceMap }
    let st2 := (cgGetNode st1 "service" svc.name moduleKey).1
    let st3 := cgAddRelation st2 ("service", svc.name) "build" moduleKey moduleKey
    cgAddDepRelations st3 ("service", svc.name) svc.dependencies

/-- ConfigGraph.addTask (resolve-config.ts lines 267-304): a task name
colliding with a service name or another task name raises a
ConfigurationError; otherwise the task is registered, its node created, the
build relation added, and the dependency loop run. -/
def cgAddTask (st : CGState) (m : ModuleM) (moduleKey : String)
    (tk : TaskConfigM) : Except GraphErr CGState :=
  match alGet st.serviceMap tk.name with
  | some _ => Except.error (GraphErr.configurationError
      ("Service and task names must be mutually unique - " ++ tk.name ++
       " is declared as both"))
  | none =>
    match alGet st.taskMap tk.name with
    | some _ => Except.error (GraphErr.configurationError
        ("Task names must be unique - " ++ tk.name ++ " is declared multiple times"))
    | none =>
      let st1 := { st with taskMap := alSet tk.name (m.name, m.plugin, tk) st.taskMap }
      let st2 := (cgGetNode st1 "task" tk.name moduleKey).1
      let st3 := cgAddRelation st2 ("task", tk.name) "build" moduleKey moduleKey
      cgAddDepRelations st3 ("task", tk.name) tk.dependencies

/-- ConfigGraph.addTest (resolve-config.ts lines 306-322): the test is
registered under module.name dot test name with no collision check, its node
created, the build relation added, and the dependency loop run. -/
def cgAddTest (st : CGState) (m : ModuleM) (moduleKey : String)
    (tc : TestConfigM) : Except GraphErr CGState :=
  let testConfigName := m.name ++ "." ++ tc.name
  let st1 := { st with
    testConfigMap := alSet testConfigName tc st.testConfigMap,
    testConfigModuleMap := alSet testConfigName m.name st.testConfigModuleMap }
  let st2 := (cgGetNode st1 "test" testConfigName moduleKey).1
  let st3 := cgAddRelation st2 ("test", testConfigName) "build" moduleKey moduleKey
  cgAddDepRelations st3 ("test", testConfigName) tc.dependencies

/-- Sequential fold with early error exit, modelling the sequential .map
calls and for loops of the constructor. -/
def foldE {α β : Type} (f : β → α → Except GraphErr β) : β → List α → Except GraphErr β
  | b, [] => Except.ok b
  | b, a :: rest =>
    match f b a with
    | Except.error e => Except.error e
    | Except.ok b1 => foldE f b1 rest

/-- One iteration of the ConfigGraph constructor loop (resolve-config.ts
lines 212-227): register the module, create its build node, add the build
dependency relations, then add its services, tasks and tests. -/
def cgAddModule (st : CGState) (m : ModuleM) : Except GraphErr CGState :=
  let moduleKey := getModuleKey m.name m.plugin
  let st1 := { st with moduleMap := alSet moduleKey m st.moduleMap }
  let st2 := (cgGetNode st1 "build" moduleKey moduleKey).1
  let st3 := m.buildDeps.foldl (fun acc bd =>
    cgAddRelation acc ("build", moduleKey) "build" (getModuleKey bd.name bd.plugin)
      (getModuleKey bd.name bd.plugin)) st2
  match foldE (fun s c => cgAddService s m moduleKey c) st3 m.serviceConfigs with
  | Except.error e => Except.error e
  | Except.ok st4 =>
    match foldE (fun s c => cgAddTask s m moduleKey c) st4 m.taskConfigs with
    | Except.error e => Except.error e
    | Except.ok st5 => foldE (fun s c => cgAddTest s m moduleKey c) st5 m.testConfigs

/-- The ConfigGraph constructor (resolve-config.ts lines 203-228). -/
def constructConfigGraph (modules : List ModuleM) : Except GraphErr CGState :=
  foldE cgAddModule cgEmpty modules

/-- A module whose service declares a dependency on a name that no service
or task resolves to. -/
def moduleBadServiceDep : ModuleM :=
  ModuleM.mk "module-a" none [] [ServiceConfigM.mk "svc" ["nope"]] [] []

/-- A module whose task declares an unresolvable dependency name. -/
def moduleBadTaskDep : ModuleM :=
  ModuleM.mk "module-b" none [] [] [TaskConfigM.mk "tsk" ["nope"]] []

/-- A module whose test declares an unresolvable dependency name. -/
def moduleBadTestDep : ModuleM :=
  ModuleM.mk "module-c" none [] [] [] [TestConfigM.mk "unit" ["nope"]]

/-- A task instance submitted to the TaskGraph (BaseTask, tasks/base.ts):
its type tag, name and an 8-character params digest (getBaseKey and getKey,
base.ts lines 66-72), the force flag, the per-type concurrencyLimit (0
models the JavaScript-falsy unset value), the type of the parent task
passed to process(tasks, parent) (task-graph.ts lines 111-117; the loop
consults node.parent.type in lines 316-323), and the keys of the tasks its
getDependencies() returns. -/
structure GTask where
  tType : String
  name : String
  paramsHash : String
  force : Bool
  limit : Nat
  parentType : Option String
  depKeys : List String
deriving DecidableEq, Repr

/-- BaseTask.getBaseKey (base.ts lines 66-68). -/
def GTask.baseKey (t : GTask) : String := t.tType ++ "." ++ t.name

/-- BaseTask.getKey (base.ts lines 70-72); getIndexKey of the task graph
returns the same value. -/
def GTask.key (t : GTask) : String := t.baseKey ++ "." ++ t.paramsHash

/-- Events of the scheduler event bus.  The processing constructor is the
per-key taskProcessing event of the event vocabulary (spec section 4.8 and
test/unit/src/task-graph.ts lines 125-131); src/task-graph.ts never emits
it, and accordingly no step of the model produces it.  Completion events
carry the full TaskResult. -/
inductive Ev where
  | pending : String → Nat → Ev
  | processing : String → Nat → Ev
  | complete : TaskResultM → Ev
  | error : TaskResultM → Ev
  | graphProcessing : Nat → Ev
  | graphComplete : Nat → Ev
deriving DecidableEq, Repr

/-- A TaskNode instance created by the add path, together with its
lifecycle record.  iid is the creation-ordered identity of the node;
addedAt / startedAt / completedAt are logical step timestamps; depsAtStart
records the dependency base-key set of the node's key at the moment it
started (the rebuilt dependency view of task-graph.ts lines 159-176);
removed mirrors removal from this.index, cancelled marks removal through
the cancellation cascade and failed a taskError. -/
structure Inst where
  iid : Nat
  task : GTask
  addedAt : Nat
  startedAt : Option Nat
  depsAtStart : List String
  completedAt : Option Nat
  failed : Bool
  cancelled : Bool
  removed : Bool
deriving DecidableEq, Repr

/-- The scheduler state: the node instances ever created (those with
removed = false form this.index in insertion order), the keys in
this.inProgress (as iids), taskDependencyCache, the result cache, the
emitted events, a logical clock, the id counter and the constructor's
concurrency limit. -/
structure Sched where
  insts : List Inst
  inProg : List Nat
  depCache : List (String × List String)
  cache : ResultCache
  events : List Ev
  clock : Nat
  nextId : Nat
  climit : Nat
deriving DecidableEq, Repr

/-- The nodes currently in this.index. -/
def Sched.live (s : Sched) : List Inst := s.insts.filter (fun i => i.removed = false)

/-- taskDependencyCache lookup: the dependency base-key set of a node key
(an absent entry reads as the empty set, task-graph.ts line 169). -/
def lookupDeps (dc : List (String × List String)) (k : String) : List String :=
  (objGet dc k).getD []

/-- The rebuilt dependency view of a node (task-graph.ts lines 163-171):
the nodes of this.index whose base key belongs to the node's cached
dependency base-key set. -/
def liveDeps (s : Sched) (i : Inst) : List Inst :=
  s.live.filter (fun m => m.task.baseKey ∈ lookupDeps s.depCache i.task.key)

/-- Find an instance by its identity. -/
def instById (s : Sched) (iid : Nat) : Option Inst :=
  s.insts.find? (fun i => i.iid = iid)

/-- The predecessor lookup of getNode (task-graph.ts lines 190-193): the
last indexed node with the same baseKey but a different key. -/
def predecessorOf (s : Sched) (t : GTask) : Option Inst :=
  (s.live.filter (fun n => n.task.baseKey = t.baseKey ∧ n.task.key ≠ t.key)).getLast?

/-- getNode plus the index insertion of the task-based addNode
(task-graph.ts lines 188-207 and 267-273): reuse an indexed node with the
same baseKey and different key when present; otherwise skip the task
entirely when the result cache gives a hit for — as the source writes it —
the task's BASE key (line 199; entries are stored under full keys, so this
lookup cannot hit for tasks whose key extends their baseKey) and force is
not set; otherwise create the node, TaskNodeMap.addNode being a no-op when
a node with the same key is already indexed.  Returns the task whose
dependencies addNodeWithDependencies continues with (node.task). -/
def addNodeOne (s : Sched) (t : GTask) : Sched × Option GTask :=
  match predecessorOf s t with
  | some ex => (s, some ex.task)
  | none =>
    if (cacheGet s.cache t.baseKey).isSome ∧ t.force = false then (s, none)
    else if (s.live.filter (fun n => n.task.key = t.key)).isEmpty = false then (s, some t)
    else
      let inst := Inst.mk s.nextId t s.clock none [] none false false false
      ({ s with insts := s.insts ++ [inst], nextId := s.nextId + 1 }, some t)

mutual

/-- addNodeWithDependencies (task-graph.ts lines 387-397): add the node,
memoise the dependency base-key set of node.task.getDependencies() into
taskDependencyCache, and recursively add each dependency task.  The
dependency tasks are resolved from the submission environment E by key;
fuel bounds the recursion depth of the embedding. -/
def addNodeWithDeps (E : List GTask) (fuel : Nat) (t : GTask) (s : Sched) : Sched :=
  match fuel with
  | 0 => s
  | Nat.succ f =>
    match addNodeOne s t with
    | (s1, none) => s1
    | (s1, some u) =>
      let depTasks := u.depKeys.filterMap (fun k => E.find? (fun e => e.key = k))
      let s2 := { s1 with
        depCache := objSet u.key (depTasks.map (fun d => d.baseKey)) s1.depCache }
      addDepsList E f depTasks s2
termination_by structural fuel

/-- The recursive loop over dependency tasks of addNodeWithDependencies
(task-graph.ts lines 393-395). -/
def addDepsList (E : List GTask) (fuel : Nat) (ds : List GTask) (s : Sched) : Sched :=
  match fuel with
  | 0 => s
  | Nat.succ f =>
    match ds with
    | [] => s
    | d :: rest => addDepsList E f rest (addNodeWithDeps E f d s)
termination_by structural fuel

end

/-- addTaskInternal (task-graph.ts lines 178-186): emit taskPending for the
submitted task's key, then add the node with its dependencies and rebuild
(rebuild is derived in this model: liveDeps recomputes the dependency view
from depCache on demand).  One atomic pump step; the clock advances at the
end. -/
def stepAddTask (E : List GTask) (fuel : Nat) (t : GTask) (s : Sched) : Sched :=
  let s0 := { s with events := s.events ++ [Ev.pending t.key s.clock] }
  let s1 := addNodeWithDeps E fuel t s0
  { s1 with clock := s1.clock + 1 }

/-- The same-type-parent exception of the loop (task-graph.ts line 316):
node.parent is set and has the node's own type. -/
def sameTypeParent (t : GTask) : Bool := t.parentType = some t.tType

/-- The instances currently in this.inProgress. -/
def inProgInsts (s : Sched) : List Inst :=
  s.inProg.filterMap (fun j => instById s j)

/-- Number of in-progress nodes of the given type (task-graph.ts lines
317-318). -/
def typeCount (s : Sched) (ty : String) : Nat :=
  ((inProgInsts s).filter (fun i => i.task.tType = ty)).length

/-- The conditions under which the processing loop starts a root node
(task-graph.ts lines 302-327): the node is indexed, not already in
progress, has no remaining dependencies (it is a root after rebuild), the
global concurrency limit is not reached, and — unless the per-type limit is
unset or the enqueuing parent has the same type — strictly fewer nodes of
its type are in progress than its concurrencyLimit. -/
def canStartB (s : Sched) (i : Inst) : Bool :=
  i.removed = false &&
  !(s.inProg.contains i.iid) &&
  (liveDeps s i).isEmpty &&
  decide (s.inProg.length < s.climit) &&
  (if i.task.limit ≠ 0 ∧ sameTypeParent i.task = false
   then decide (typeCount s i.task.tType < i.task.limit) else true)

/-- Record the start of a node: startedAt is stamped and the dependency
base-key set of its key is snapshotted (processTask records startedAt,
task-graph.ts line 338). -/
def setStartedInst (i : Inst) (now : Nat) (ds : List String) : Inst :=
  { i with startedAt := some now, depsAtStart := ds }

/-- Targeted instance update. -/
def updInsts (l : List Inst) (iid : Nat) (f : Inst → Inst) : List Inst :=
  l.map (fun i => if i.iid = iid then f i else i)

/-- One root start of the processing loop (task-graph.ts lines 302-329 and
332-341): the node joins this.inProgress and its startedAt is recorded.
The source emits no per-task event here (the taskProcessing emission the
tests expect is absent from src/task-graph.ts). -/
def stepStart (s : Sched) (iid : Nat) : Sched :=
  { s with
    insts := updInsts s.insts iid
      (fun i => setStartedInst i s.clock (lookupDeps s.depCache i.task.key)),
    inProg := s.inProg ++ [iid],
    clock := s.clock + 1 }

/-- The TaskResult assembled by processTask for a node (task-graph.ts lines
344-354 and 357-368): identity fields, startedAt, the completion timestamp
and the error flag. -/
def resultOf (i : Inst) (now : Nat) (err : Bool) : TaskResultM :=
  TaskResultM.mk i.task.tType i.task.baseKey i.task.key i.iid err
    (i.startedAt.getD 0) now

/-- Record a terminal outcome on the instance: completedAt stamped, failed
flag set for errors, and the node removed from the index (completeTask and
remove, task-graph.ts lines 378-385 and 399-402). -/
def setDoneInst (i : Inst) (now : Nat) (err : Bool) : Inst :=
  { i with completedAt := some now, failed := err, removed := true }

/-- Successful settlement of an in-progress node (processTask .then and
.finally, task-graph.ts lines 357-361 and 369-373): taskComplete is
emitted with the result, the result is put in the result cache, and the
node is removed from index and inProgress. -/
def stepDone (s : Sched) (iid : Nat) : Sched :=
  match instById s iid with
  | none => s
  | some i =>
    let r := resultOf i s.clock false
    { s with
      insts := updInsts s.insts iid (fun j => setDoneInst j s.clock false),
      inProg := s.inProg.filter (fun j => j ≠ iid),
      cache := cachePut r s.cache,
      events := s.events ++ [Ev.complete r],
      clock := s.clock + 1 }

/-- Mark a node cancelled: cancelDependants removes it from index and
inProgress without recording a completion (task-graph.ts lines 404-411 and
399-402). -/
def setCancelledInst (i : Inst) : Inst :=
  { i with cancelled := true, removed := true }

/-- getDependants (task-graph.ts lines 413-417): the indexed nodes whose
rebuilt dependency list contains a node with the given base key — which,
since dependency views only hold live nodes, requires some live node to
carry that base key — followed recursively by their dependants keyed by
their own base keys.  The fuel bounds the recursion depth (the source
recursion does not terminate on cyclic dependency views). -/
def dependantIids (s : Sched) : Nat → String → List Nat
  | 0, _ => []
  | Nat.succ f, bk =>
    if (s.live.filter (fun m => m.task.baseKey = bk)).isEmpty then []
    else
      let direct := s.live.filter (fun n => bk ∈ lookupDeps s.depCache n.task.key)
      (direct.map (fun n => n.iid)) ++
        (direct.map (fun n => dependantIids s f n.task.baseKey)).flatten

/-- Failing settlement of an in-progress node (processTask .catch and
.finally, task-graph.ts lines 362-373): the transitive dependants are
collected against the current graph and removed (cancelDependants), the
taskError event is emitted with the result, the error result is put in the
result cache, and the node itself is removed. -/
def stepFail (s : Sched) (iid : Nat) : Sched :=
  match instById s iid with
  | none => s
  | some i =>
    let r := resultOf i s.clock true
    let ds := dependantIids s (s.live.length + 1) i.task.baseKey
    let s1 := { s with
      insts := s.insts.map (fun (j : Inst) => if j.iid ∈ ds then setCancelledInst j else j),
      inProg := s.inProg.filter (fun (j : Nat) => !(ds.contains j)) }
    { s1 with
      insts := updInsts s1.insts iid (fun j => setDoneInst j s.clock true),
      inProg := s1.inProg.filter (fun j => j ≠ iid),
      cache := cachePut r s1.cache,
      events := s1.events ++ [Ev.error r],
      clock := s1.clock + 1 }

/-- Entry of the processing loop (task-graph.ts lines 286-294): with an
empty index, taskGraphComplete fires and the loop stops; otherwise
taskGraphProcessing fires. -/
def stepLoopEnter (s : Sched) : Sched :=
  if s.live.isEmpty then
    { s with events := s.events ++ [Ev.graphComplete s.clock], clock := s.clock + 1 }
  else
    { s with events := s.events ++ [Ev.graphProcessing s.clock], clock := s.clock + 1 }

/-- A fresh TaskGraph (constructor, task-graph.ts lines 87-96) with the
given concurrency limit. -/
def initSched (climit : Nat) : Sched :=
  Sched.mk [] [] [] emptyCache [] 0 0 climit

/-- The serialised pump operations of the scheduler, as a step relation:
task submission via addTaskInternal, one root start of the loop, successful
or failing settlement of an in-progress node, and loop entry (which only
emits the graph-level events).  Task process bodies run between the start
and settlement steps of a node; settlement steps are only modelled for
nodes still tracked in inProgress. -/
inductive Step (E : List GTask) : Sched → Sched → Prop where
  | add (s : Sched) (t : GTask) (fuel : Nat) (ht : t ∈ E) :
      Step E s (stepAddTask E fuel t s)
  | start (s : Sched) (iid : Nat) (i : Inst) (hi : instById s iid = some i)
      (hc : canStartB s i = true) : Step E s (stepStart s iid)
  | done (s : Sched) (iid : Nat) (hp : iid ∈ s.inProg) : Step E s (stepDone s iid)
  | fail (s : Sched) (iid : Nat) (hp : iid ∈ s.inProg) : Step E s (stepFail s iid)
  | looper (s : Sched) : Step E s (stepLoopEnter s)

/-- States reachable by executions over the submission environment E with
the given concurrency limit. -/
inductive Reach (E : List GTask) (climit : Nat) : Sched → Prop where
  | init : Reach E climit (initSched climit)
  | next (s sNew : Sched) : Reach E climit s → Step E s sNew → Reach E climit sNew

/-- Reflexive-transitive closure of Step, for statements about all later
states of an execution. -/
inductive Steps (E : List GTask) : Sched → Sched → Prop where
  | refl (s : Sched) : Steps E s s
  | tail (s1 s2 s3 : Sched) : Steps E s1 s2 → Step E s2 s3 → Steps E s1 s3

/-- Transitive dependants of a base key over the currently live dependency
views, following the recursion of getDependants: a node directly depending
on the base key, or a dependant (at depth k) of such a node's own base
key.  The length index k counts the recursion depth. -/
inductive DependantOf (s : Sched) : String → Inst → Nat → Prop where
  | direct (bk : String) (n : Inst) (hn : n ∈ s.live)
      (hd : bk ∈ lookupDeps s.depCache n.task.key) : DependantOf s bk n 1
  | step (bk : String) (d n : Inst) (k : Nat)
      (hdd : DependantOf s bk d 1)
      (hrec : DependantOf s d.task.baseKey n k) : DependantOf s bk n (k + 1)

/-- Count of taskError events carrying the given instance identity. -/
def errCount (evs : List Ev) (x : Nat) : Nat :=
  (evs.filter (fun e => match e with
    | Ev.error r => r.iid = x
    | _ => false)).length

/-- Whether an event is a per-key taskProcessing event. -/
def isProcessingEv : Ev → Bool
  | Ev.processing _ _ => true
  | _ => false

/-- Number of in-progress nodes of the given type that were not enqueued by
a same-type parent. -/
def nonExemptCount (s : Sched) (ty : String) : Nat :=
  ((inProgInsts s).filter
    (fun i => i.task.tType = ty ∧ sameTypeParent i.task = false)).length

/-- Instance identities are unique and bounded by the id counter. -/
def iidsOk (s : Sched) : Prop :=
  ((s.insts.map (fun i => i.iid)).Nodup) ∧ ∀ i ∈ s.insts, i.iid < s.nextId

/-- All recorded timestamps lie strictly below the clock. -/
def timesOk (s : Sched) : Prop :=
  ∀ i ∈ s.insts, i.addedAt < s.clock ∧
    (∀ ts, i.startedAt = some ts → ts < s.clock) ∧
    (∀ tc, i.completedAt = some tc → tc < s.clock)

/-- Every in-progress identity belongs to a live, started, unsettled
instance. -/
def inProgOk (s : Sched) : Prop :=
  ∀ j ∈ s.inProg, ∃ i, instById s j = some i ∧ i.removed = false ∧
    i.startedAt.isSome = true ∧ i.completedAt = none ∧ i.failed = false

/-- The dependency-order invariant: a dependency instance (per the
dependant's start-time dependency snapshot) that was added no later than
the dependant started is already removed, and completed strictly before the
dependant started if it completed at all. -/
def depOrderInv (s : Sched) : Prop :=
  ∀ a ∈ s.insts, ∀ b ∈ s.insts, ∀ tb, b.startedAt = some tb →
    a.task.baseKey ∈ b.depsAtStart → a.addedAt ≤ tb →
    a.removed = true ∧ ∀ ca, a.completedAt = some ca → ca < tb

/-- The per-type concurrency bound, for any type whose tasks all carry the
same positive concurrencyLimit. -/
def perTypeOk (E : List GTask) (s : Sched) : Prop :=
  ∀ ty k, 1 ≤ k → (∀ t ∈ E, t.tType = ty → t.limit = k) →
    nonExemptCount s ty ≤ k

/-- Each instance has exactly one taskError event iff it failed, and no
event references identities not yet allocated. -/
def errEventsOk (s : Sched) : Prop :=
  (∀ i ∈ s.insts, errCount s.events i.iid = if i.failed then 1 else 0) ∧
  (∀ x, s.nextId ≤ x → errCount s.events x = 0)

/-- The combined reachability invariant of the scheduler model. -/
def globalInv (E : List GTask) (s : Sched) : Prop :=
  iidsOk s ∧ timesOk s ∧ s.inProg.Nodup ∧ inProgOk s ∧
  (∀ i ∈ s.insts, i.task ∈ E) ∧ depOrderInv s ∧
  s.inProg.length ≤ s.climit ∧ perTypeOk E s ∧
  (∀ i ∈ s.insts, i.failed = true → i.removed = true) ∧
  (∀ i ∈ s.insts, i.completedAt.isSome = true → i.removed = true) ∧
  errEventsOk s

/-- Frame of the add path: the clock, inProgress, events, cache and limit
are untouched, and instances are only appended, fresh and unstarted. -/
def frameAdd (s sOut : Sched) : Prop :=
  sOut.clock = s.clock ∧ sOut.inProg = s.inProg ∧ sOut.events = s.events ∧
  sOut.cache = s.cache ∧ sOut.climit = s.climit ∧ s.nextId ≤ sOut.nextId ∧
  ∃ suf, sOut.insts = s.insts ++ suf ∧
    (∀ i ∈ suf, i.addedAt = s.clock ∧ i.startedAt = none ∧ i.completedAt = none ∧
      i.removed = false ∧ i.failed = false ∧ i.cancelled = false ∧
      s.nextId ≤ i.iid ∧ i.iid < sOut.nextId) ∧
    ((suf.map (fun i => i.iid)).Nodup)

/-- The dependency-order sentence of the claim, stated over the model: for
every reachable state and every pair of scheduled instances joined by a
dependency edge of the task dependency cache, the dependency completed no
later than the dependant started. -/
def c1Claim : Prop :=
  ∀ (E : List GTask) (climit : Nat) (s : Sched), Reach E climit s →
    ∀ a ∈ s.insts, ∀ b ∈ s.insts, ∀ tb ca,
      b.startedAt = some tb → a.completedAt = some ca →
      a.task.baseKey ∈ lookupDeps s.depCache b.task.key → ca ≤ tb

/-- The cancellation sentence of the claim, stated over the model: whenever
a failing settlement is possible (an in-progress node), every transitive
dependant of its base key has never been started. -/
def c3Claim : Prop :=
  ∀ (E : List GTask) (climit : Nat) (s : Sched), Reach E climit s →
    ∀ iid i, instById s iid = some i → iid ∈ s.inProg →
    ∀ n k, DependantOf s i.task.baseKey n k → n.startedAt = none

/-- A plain task with no dependencies. -/
def taskA : GTask := GTask.mk "test" "a" "h" false 0 none []

/-- Environment of the single-task execution. -/
def envOne : List GTask := [taskA]

/-- The single-task execution trace (the scenario of the test
"should emit a taskPending event when adding a task"): submit task a,
enter the loop, start the task, settle it successfully, re-enter the
loop. -/
def trOne1 : Sched := stepAddTask envOne 2 taskA (initSched 100)

/-- Loop entry after the submission. -/
def trOne2 : Sched := stepLoopEnter trOne1

/-- Start of the single task. -/
def trOne3 : Sched := stepStart trOne2 0

/-- Successful settlement of the single task. -/
def trOne4 : Sched := stepDone trOne3 0

/-- Final loop entry emitting taskGraphComplete. -/
def trOne5 : Sched := stepLoopEnter trOne4

/-- Task a of the re-submission trace. -/
def tA : GTask := GTask.mk "test" "a" "h" false 0 none []

/-- Task a re-submitted with force set (same key). -/
def tAf : GTask := GTask.mk "test" "a" "h" true 0 none []

/-- Task b depending on task a. -/
def tB : GTask := GTask.mk "test" "b" "h" false 0 none ["test.a.h"]

/-- Environment of the re-submission execution. -/
def envTwo : List GTask := [tA, tAf, tB]

/-- Re-submission trace, step 1: submit b, whose dependency closure adds a
(instance 1) alongside b (instance 0). -/
def trTwo1 : Sched := stepAddTask envTwo 3 tB (initSched 100)

/-- Step 2: start a (the only root). -/
def trTwo2 : Sched := stepStart trTwo1 1

/-- Step 3: a completes successfully; its result is cached under its full
key. -/
def trTwo3 : Sched := stepDone trTwo2 1

/-- Step 4: b, now a root, starts. -/
def trTwo4 : Sched := stepStart trTwo3 0

/-- Step 5: while b is in progress, task a is re-submitted with force
(instance 2) — getNode's cache lookup, keyed by the base key, cannot hit
anyway. -/
def trTwo5 : Sched := stepAddTask envTwo 2 tAf trTwo4

/-- Step 6: the re-added a starts: it has no dependencies, so it is a root,
while b (in progress) now has a live dependency instance again. -/
def trTwo6 : Sched := stepStart trTwo5 2

/-- Step 7: the re-added a fails; the cancellation cascade collects b —
already started — and removes it. -/
def trTwo7 : Sched := stepFail trTwo6 2

/-- Instance literal: b as of trTwo6 (started at 3, live). -/
def instB6 : Inst :=
  Inst.mk 0 tB 0 (some 3) ["test.a"] none false false false

/-- Instance literal: the re-added a as of trTwo6 (started at 5, live). -/
def instA6 : Inst :=
  Inst.mk 2 tAf 4 (some 5) [] none false false false

/-- Instance literal: b as of trTwo7 (cancelled while started). -/
def instB7 : Inst :=
  Inst.mk 0 tB 0 (some 3) ["test.a"] none false true true

/-- Instance literal: the first a instance as of trTwo7 (completed at 2). -/
def instA17 : Inst :=
  Inst.mk 1 tA 0 (some 1) [] (some 2) false false true

/-- Instance literal: the re-added a as of trTwo7 (failed at 6). -/
def instA27 : Inst :=
  Inst.mk 2 tAf 4 (some 5) [] (some 6) true false true

/-- A task with a per-type concurrency limit of 1. -/
def taskL : GTask := GTask.mk "build" "m" "h" false 1 none []

/-- Environment of the limited-task execution. -/
def envLim : List GTask := [taskL]

/-- Limited-task trace: submit and start the task. -/
def trLim1 : Sched := stepAddTask envLim 2 taskL (initSched 4)

/-- The limited task in progress. -/
def trLim2 : Sched := stepStart trLim1 0

/-- State of the node-based add path of the merged source (task-graph.ts
lines 209-265): the index in insertion order, the keys in this.inProgress,
the result cache and the emitted events.  The roots collection and the
dependant edges that the inherit helper (undefined in the merged source)
rewires are outside the observables of this path. -/
structure PState where
  index : List GTask
  inProgress : List String
  cache : ResultCache
  events : List Ev
deriving DecidableEq, Repr

/-- getPredecessor — absent from the merged source; modelled from the spec:
the last indexed node with the same baseKey and a different key. -/
def predecessor209 (st : PState) (t : GTask) : Option GTask :=
  (st.index.filter (fun n => n.baseKey = t.baseKey ∧ n.key ≠ t.key)).getLast?

mutual

/-- TaskGraph.addNode on a node (task-graph.ts lines 209-265): return when a
node with the same key is indexed (lines 210-213); when a predecessor exists
and is in progress, index the node and return — inherit, undefined in the
source, rewires edges this state does not carry — and otherwise continue
with the predecessor in place of the node (lines 215-231); the rest is the
cache check and dependency walk.  fuel bounds the recursion depth of the
embedding. -/
def addNode209 (E : List GTask) (fuel : Nat) (st : PState) (t : GTask) : PState :=
  match fuel with
  | 0 => st
  | Nat.succ f =>
    if (st.index.filter (fun n => n.key = t.key)).isEmpty = false then st
    else
      match predecessor209 st t with
      | some p =>
        if st.inProgress.contains p.key then { st with index := st.index ++ [t] }
        else addNodeBody209 E f st p
      | none => addNodeBody209 E f st t
termination_by structural fuel

/-- task-graph.ts lines 233-264: when the node is not forced and the result
cache returns an entry without the error flag for its key, emit taskComplete
with exactly the cached result and return; otherwise index the node and walk
its dependencies (the dependency tasks are resolved from the submission
environment E by key). -/
def addNodeBody209 (E : List GTask) (fuel : Nat) (st : PState) (node : GTask) :
    PState :=
  match fuel with
  | 0 => st
  | Nat.succ f =>
    match cacheGet st.cache node.key with
    | some r =>
      if node.force = false ∧ r.hasError = false
      then { st with events := st.events ++ [Ev.complete r] }
      else depLoop209 E f { st with index := st.index ++ [node] }
        (node.depKeys.filterMap (fun k => E.find? (fun e => e.key = k)))
    | none => depLoop209 E f { st with index := st.index ++ [node] }
        (node.depKeys.filterMap (fun k => E.find? (fun e => e.key = k)))
termination_by structural fuel

/-- task-graph.ts lines 244-256: for each dependency, substitute its
predecessor when one is indexed, skip it when it is not forced and the
cache holds a result for its key (removeDependency), and recursively add
it otherwise. -/
def depLoop209 (E : List GTask) (fuel : Nat) (st : PState) : List GTask → PState
  | [] => st
  | d :: rest =>
    match fuel with
    | 0 => st
    | Nat.succ f =>
      let dependency := (predecessor209 st d).getD d
      if dependency.force = false ∧ (cacheGet st.cache dependency.key).isSome
      then depLoop209 E f st rest
      else depLoop209 E f (addNode209 E f st dependency) rest
termination_by structural fuel

end

/-- The cache-consistency sentence of the claim over the node-based add
path: whenever a task is added with force unset and the result cache holds
a result for its key, a taskComplete event carrying exactly that result is
appended (the fuel premiss only rules out the truncation artefact of the
embedding). -/
def c2Claim : Prop :=
  ∀ (E : List GTask) (fuel : Nat) (st : PState) (t : GTask) (r : TaskResultM),
    2 ≤ fuel → t.force = false → cacheGet st.cache t.key = some r →
    (addNode209 E fuel st t).events = st.events ++ [Ev.complete r]

/-- A task with an already-cached result under its key. -/
def tX : GTask := GTask.mk "test" "x" "h1" false 0 none []

/-- A same-baseKey predecessor of tX under another params hash. -/
def tXp : GTask := GTask.mk "test" "x" "h2" false 0 none []

/-- The cached result for tX's key. -/
def rX : TaskResultM := TaskResultM.mk "test" "test.x" "test.x.h1" 0 false 0 1

/-- A graph state in which tX's predecessor is indexed and in progress while
the cache holds rX for tX's key. -/
def pstX : PState := PState.mk [tXp] ["test.x.h2"] (cachePut rX emptyCache) []

/-- A graph state with an empty index whose cache holds rX for tX's key. -/
def pstW : PState := PState.mk [] [] (cachePut rX emptyCache) []

-- ===================================================================
-- THEOREMS
-- ===================================================================

theorem length_filter_le_of_imp {α : Type} (p q : α → Bool)
    (h : ∀ x, p x = true → q x = true) :
    ∀ l : List α, (l.filter p).length ≤ (l.filter q).length := by
  intro l
  induction l with
  | nil => simp
  | cons x xs ih =>
    by_cases hp : p x = true
    · simp [List.filter_cons, hp, h x hp]
      omega
    · simp only [List.filter_cons]
      rw [Bool.not_eq_true] at hp
      rw [hp]
      by_cases hq : q x = true
      · simp [hq]; omega
      · rw [Bool.not_eq_true] at hq
        rw [hq]
        exact ih

theorem insertByCompleted_of_all_le (r : TaskResultM) (l : List TaskResultM)
    (h : ∀ x ∈ l, x.completedAt ≤ r.completedAt) :
    insertByCompleted r l = l ++ [r] := by
  induction l with
  | nil => rfl
  | cons x xs ih =>
    have hx : x.completedAt ≤ r.completedAt := h x (by simp)
    simp only [insertByCompleted, if_pos hx]
    rw [ih (fun y hy => h y (by simp [hy]))]
    simp

theorem foldl_insert_sorted (l : List TaskResultM) :
    ∀ acc, (∀ a ∈ acc, ∀ b ∈ l, a.completedAt ≤ b.completedAt) →
    l.Pairwise (fun a b => a.completedAt ≤ b.completedAt) →
    l.foldl (fun acc r => insertByCompleted r acc) acc = acc ++ l := by
  induction l with
  | nil =>
    intro acc _ _
    simp
  | cons y ys ih =>
    intro acc hcross hl
    simp only [List.foldl_cons]
    rw [insertByCompleted_of_all_le y acc (fun a ha => hcross a ha y (List.mem_cons_self y ys))]
    have hcc : ∀ a ∈ acc ++ [y], ∀ b ∈ ys, a.completedAt ≤ b.completedAt := by
      intro a ha b hb
      rcases List.mem_append.mp ha with h1 | h1
      · exact hcross a h1 b (List.mem_cons_of_mem y hb)
      · have hay : a = y := by simpa using h1
        subst hay
        exact (List.pairwise_cons.mp hl).1 b hb
    rw [ih (acc ++ [y]) hcc (List.pairwise_cons.mp hl).2]
    simp

theorem sortByCompletedAt_of_sorted (l : List TaskResultM)
    (hl : l.Pairwise (fun a b => a.completedAt ≤ b.completedAt)) :
    sortByCompletedAt l = l := by
  have := foldl_insert_sorted l [] (by simp) hl
  simpa [sortByCompletedAt] using this

theorem filter_append_not_mem {α β : Type} [DecidableEq β] (f : α → β)
    (l1 l2 : List α) (hnd : ((l1 ++ l2).map f).Nodup) :
    (l1 ++ l2).filter (fun e => f e ∉ l2.map f) = l1 := by
  rw [List.map_append] at hnd
  rcases List.nodup_append.mp hnd with ⟨_, _, hdisj⟩
  rw [List.filter_append]
  have h1 : l1.filter (fun e => f e ∉ l2.map f) = l1 := by
    rw [List.filter_eq_self]
    intro a ha
    simp only [decide_eq_true_eq]
    exact fun hmem => hdisj (List.mem_map_of_mem f ha) hmem
  have h2 : l2.filter (fun e => f e ∉ l2.map f) = [] := by
    rw [List.filter_eq_nil_iff]
    intro a ha
    simp only [decide_eq_true_eq, Decidable.not_not]
    exact List.mem_map_of_mem f ha
  rw [h1, h2, List.append_nil]

theorem natKey_injective : Function.Injective natKey := by
  intro i j h
  have : (natKey i).data = (natKey j).data := by rw [h]
  simp only [natKey] at this
  have := congrArg List.length this
  simpa using this

theorem cachePopulation_sorted (n : Nat) :
    (cachePopulation n).Pairwise (fun a b => a.completedAt ≤ b.completedAt) := by
  unfold cachePopulation
  rw [List.pairwise_map]
  exact (List.pairwise_lt_range n).imp Nat.le_of_lt

theorem cachePopulation_keys_nodup (n : Nat) :
    ((cachePopulation n).map (fun x => x.key)).Nodup := by
  unfold cachePopulation
  rw [List.map_map]
  have : ((fun x => x.key) ∘ mkEntry) = fun i => natKey i := by
    funext i
    simp [mkEntry]
  rw [this]
  exact (List.nodup_range n).map natKey_injective

/-- C6 helper: cleanup on a cache whose entries arrive oldest-first with
distinct keys keeps exactly the first (oldest) cleanupCount entries. -/
theorem cacheCleanupList_sorted_nodup (l : List TaskResultM)
    (hl : l.Pairwise (fun a b => a.completedAt ≤ b.completedAt))
    (hnd : (l.map (fun x => x.key)).Nodup) :
    cacheCleanupList l = l.take cleanupCount := by
  have hstep : cacheCleanupList l
      = l.filter (fun e => e.key ∉ (l.drop cleanupCount).map (fun x => x.key)) := by
    unfold cacheCleanupList
    rw [sortByCompletedAt_of_sorted l hl]
  rw [hstep]
  have h := filter_append_not_mem (fun x : TaskResultM => x.key)
    (l.take cleanupCount) (l.drop cleanupCount)
    (by rw [List.take_append_drop]; exact hnd)
  rw [List.take_append_drop] at h
  exact h

/-- C6: the scheduler result cache is bounded by MAX_CACHE_SIZE = 1000 and a
put that brings the length counter to the bound triggers cleanup — but the
cleanup deletes the NEWEST 20 percent of the results (those from index 800
onwards of the ascending sort by completedAt) and keeps the OLDEST 80
percent, the reverse of what the claim (and the comment in the source)
states.  Evaluated on a cache of 1000 results completed at times 0..999:
the survivors are exactly the 800 oldest (completedAt 0..799); the newest
result is evicted while the oldest stays. -/
theorem c6_cleanup_keeps_oldest :
    cacheCleanupList (cachePopulation 1000) = (cachePopulation 1000).take 800 ∧
    (cacheCleanupList (cachePopulation 1000)).map (fun r => r.completedAt)
      = List.range 800 ∧
    mkEntry 0 ∈ cacheCleanupList (cachePopulation 1000) ∧
    mkEntry 999 ∉ cacheCleanupList (cachePopulation 1000) := by
  have h8 : cleanupCount = 800 := rfl
  have hmain : cacheCleanupList (cachePopulation 1000) = (cachePopulation 1000).take 800 := by
    rw [cacheCleanupList_sorted_nodup (cachePopulation 1000)
      (cachePopulation_sorted 1000) (cachePopulation_keys_nodup 1000), h8]
  have htake : (cachePopulation 1000).take 800 = cachePopulation 800 := by
    unfold cachePopulation
    rw [← List.map_take, List.take_range]
    norm_num
  refine ⟨hmain, ?_, ?_, ?_⟩
  · rw [hmain, htake]
    unfold cachePopulation
    rw [List.map_map]
    have : ((fun r => r.completedAt) ∘ mkEntry) = id := by
      funext i
      simp [mkEntry]
    rw [this, List.map_id]
  · rw [hmain, htake]
    unfold cachePopulation
    exact List.mem_map.mpr ⟨0, by simp, rfl⟩
  · rw [hmain, htake]
    intro hmem
    unfold cachePopulation at hmem
    rcases List.mem_map.mp hmem with ⟨i, hi, heq⟩
    have : i = 999 := by
      have := congrArg (fun r => r.iid) heq
      simpa [mkEntry] using this
    subst this
    simp at hi


theorem memoLookup_memoSet (st : MemoSt) (cid : Nat) (path : String) (v : Prim) :
    memoLookup (memoSet st cid path v) cid path = some v := by
  unfold memoLookup memoSet
  induction st.entries with
  | nil => simp [memoSetList]
  | cons e es ih =>
    by_cases he : e.1 = cid ∧ e.2.1 = path
    · simp [memoSetList, he]
    · simp only [memoSetList, if_neg he]
      simp only [List.find?]
      have : (decide (e.1 = cid ∧ e.2.1 = path)) = false := by
        simp [he]
      rw [this]
      simpa using ih

theorem memoHit_of_lookup (st : MemoSt) (cid : Nat) (path : String) (v : Prim)
    (hm : memoLookup st cid path = some v) (ht : v.truthy = true) :
    memoHit st cid path = some v := by
  unfold memoHit
  rw [hm]
  simp [ht]

theorem memoLookup_of_memoHit (st : MemoSt) (cid : Nat) (path : String) (v : Prim)
    (hm : memoHit st cid path = some v) : memoLookup st cid path = some v := by
  unfold memoHit at hm
  cases hml : memoLookup st cid path with
  | some w =>
    rw [hml] at hm
    by_cases ht : w.truthy = true
    · simp [ht] at hm
      rw [hm]
    · simp [ht] at hm
  | none =>
    rw [hml] at hm
    simp at hm

theorem memoHit_none_of (st : MemoSt) (cid : Nat) (path : String)
    (hm : ∀ v, memoLookup st cid path = some v → v.truthy = false) :
    memoHit st cid path = none := by
  unfold memoHit
  cases hml : memoLookup st cid path with
  | some v => simp [hm v hml]
  | none => rfl

theorem resolveC_memo_hit (root cur : CtxM) (key nodePath stack : List String)
    (st : MemoSt) (v : Prim) (fuel : Nat)
    (hm : memoLookup st cur.cid (dotted key) = some v) (ht : v.truthy = true) :
    resolveC root cur key nodePath stack st fuel = (Except.ok v, st) := by
  rw [resolveC.eq_def, memoHit_of_lookup st cur.cid (dotted key) v hm ht]
  cases fuel with
  | zero => rfl
  | succ f => rfl

theorem resolveC_ok_stores (root cur : CtxM) (key nodePath stack : List String)
    (st st' : MemoSt) (res : Prim) (fuel : Nat)
    (h : resolveC root cur key nodePath stack st fuel = (Except.ok res, st')) :
    memoLookup st' cur.cid (dotted key) = some res := by
  rw [resolveC.eq_def] at h
  cases hh : memoHit st cur.cid (dotted key) with
  | some v =>
    rw [hh] at h
    have hv := memoLookup_of_memoHit st cur.cid (dotted key) v hh
    cases fuel with
    | zero =>
      simp only [Prod.mk.injEq] at h
      rw [← h.2, hv]
      exact congrArg some (Except.ok.inj h.1)
    | succ f =>
      simp only [Prod.mk.injEq] at h
      rw [← h.2, hv]
      exact congrArg some (Except.ok.inj h.1)
  | none =>
    rw [hh] at h
    cases fuel with
    | zero => simp at h
    | succ f =>
      simp only [] at h
      by_cases hs : String.intercalate "." (nodePath ++ key) ∈ stack
      · rw [if_pos hs] at h
        simp at h
      · rw [if_neg hs] at h
        cases hw : resolveWalk root (WVal.raw (CVal.child cur.cid cur.entries)) [] key nodePath stack st f with
        | mk r1 st1 =>
          rw [hw] at h
          cases r1 with
          | error e => simp at h
          | ok wopt =>
            cases wopt with
            | none => simp at h
            | some w =>
              cases hp : asPrim w with
              | none => simp [hp] at h
              | some p =>
                simp [hp] at h
                rw [← h.2, ← h.1]
                exact memoLookup_memoSet st1 cur.cid (dotted key) p

/-- C7: whenever resolving a key re-enters a fully-qualified path already on
the resolution stack (and the per-instance memo does not short-circuit the
call with a previously stored truthy value), ConfigContext.resolve fails
with the circular-reference error naming the failing path and the stack of
paths in the cycle; in particular the two-key configuration a = b-reference,
b = a-reference fails with the circular error naming both paths a and b. -/
theorem c7_circular_reference (root cur : CtxM) (key nodePath stack : List String)
    (st : MemoSt) (f : Nat)
    (hm : ∀ v, memoLookup st cur.cid (dotted key) = some v → v.truthy = false)
    (hs : String.intercalate "." (nodePath ++ key) ∈ stack) :
    resolveC root cur key nodePath stack st (Nat.succ f)
      = (Except.error (CErr.circular (dotted key) stack), st) ∧
    (resolveC ctxAB ctxAB ["a"] [] [] emptyMemo 9).1
      = Except.error (CErr.circular "a" ["a", "b"]) := by
  constructor
  · rw [resolveC.eq_def, memoHit_none_of st cur.cid (dotted key) hm]
    simp [hs]
  · rfl

/-- C7 witness: the general branch applied at a concrete re-entrant stack. -/
theorem c7_circular_reference_witness :
    resolveC ctxAB ctxAB ["a"] [] ["a"] emptyMemo 1
      = (Except.error (CErr.circular "a" ["a"]), emptyMemo) ∧
    (resolveC ctxAB ctxAB ["a"] [] [] emptyMemo 9).1
      = Except.error (CErr.circular "a" ["a", "b"]) :=
  c7_circular_reference ctxAB ctxAB ["a"] [] ["a"] emptyMemo 0
    (fun v hv => by simp [memoLookup, emptyMemo] at hv) (by decide)

/-- C10: once resolve succeeds on an instance with a truthy primitive res
for a path, every subsequent resolve call on the same instance with the
same path returns exactly res out of the per-instance memo with the state
unchanged — for any fuel (including zero: no lazy callable is invoked and
no templated string is re-resolved, since any recomputation would consume
fuel) and for any stack (including stacks containing the path itself: no
cycle check is performed); by contrast a falsy result such as the empty
string, although assigned to the memo, is ignored by the truthiness test on
retrieval and is recomputed on each call: with no fuel the retry runs out
of fuel instead of answering from the memo. -/
theorem c10_memoisation (root cur : CtxM) (key nodePath stack : List String)
    (st st' : MemoSt) (res : Prim) (fuel : Nat)
    (h : resolveC root cur key nodePath stack st fuel = (Except.ok res, st'))
    (ht : res.truthy = true) :
    (∀ fuel2 nodePath2 stack2,
      resolveC root cur key nodePath2 stack2 st' fuel2 = (Except.ok res, st')) ∧
    resolveC ctxEmptyStr ctxEmptyStr ["a"] [] [] emptyMemo 9
      = (Except.ok (Prim.s ""), memoSet emptyMemo 0 "a" (Prim.s "")) ∧
    resolveC ctxEmptyStr ctxEmptyStr ["a"] [] [] (memoSet emptyMemo 0 "a" (Prim.s "")) 0
      = (Except.error CErr.outOfFuel, memoSet emptyMemo 0 "a" (Prim.s "")) := by
  refine ⟨?_, by rfl, by rfl⟩
  intro fuel2 nodePath2 stack2
  exact resolveC_memo_hit root cur key nodePath2 stack2 st' res fuel2
    (resolveC_ok_stores root cur key nodePath stack st st' res fuel h) ht

/-- C10 witness: the memoisation theorem applied to a concrete successful
resolution of a truthy string, re-queried with zero fuel and a re-entrant
stack. -/
theorem c10_memoisation_witness :
    (∀ fuel2 nodePath2 stack2,
      resolveC ctxTruthyStr ctxTruthyStr ["a"] nodePath2 stack2
        (memoSet emptyMemo 0 "a" (Prim.s "x")) fuel2
        = (Except.ok (Prim.s "x"), memoSet emptyMemo 0 "a" (Prim.s "x"))) ∧
    resolveC ctxEmptyStr ctxEmptyStr ["a"] [] [] emptyMemo 9
      = (Except.ok (Prim.s ""), memoSet emptyMemo 0 "a" (Prim.s "")) ∧
    resolveC ctxEmptyStr ctxEmptyStr ["a"] [] [] (memoSet emptyMemo 0 "a" (Prim.s "")) 0
      = (Except.error CErr.outOfFuel, memoSet emptyMemo 0 "a" (Prim.s "")) := by
  have h := c10_memoisation ctxTruthyStr ctxTruthyStr ["a"] [] [] emptyMemo
    (memoSet emptyMemo 0 "a" (Prim.s "x")) (Prim.s "x") 9 (by rfl) (by decide)
  exact h


theorem filter_assoc_nil_of_not_mem (pn : String) (l : List (String × HandlerM))
    (hwf : ∀ e ∈ l, e.2.pluginName = e.1) (hnm : pn ∉ l.map (fun e => e.1)) :
    l.filter (fun e => e.2.pluginName = pn) = [] := by
  induction l with
  | nil => rfl
  | cons e es ih =>
    have hk : e.1 ≠ pn := by
      intro h
      exact hnm (by simp [h])
    have hv : e.2.pluginName = e.1 := hwf e (by simp)
    rw [List.filter_cons]
    have : (decide (e.2.pluginName = pn)) = false := by
      simp [hv, hk]
    rw [this]
    simp only [Bool.false_eq_true, if_false]
    exact ih (fun x hx => hwf x (by simp [hx])) (fun h => hnm (by simp [h]))

theorem filter_assoc_single (pn : String) (h : HandlerM) (l : List (String × HandlerM))
    (hnd : (l.map (fun e => e.1)).Nodup)
    (hwf : ∀ e ∈ l, e.2.pluginName = e.1)
    (hget : objGet l pn = some h) :
    l.filter (fun e => e.2.pluginName = pn) = [(pn, h)] := by
  induction l with
  | nil => simp [objGet] at hget
  | cons e es ih =>
    rw [List.map_cons] at hnd
    rcases List.nodup_cons.mp hnd with ⟨hnm, hnd2⟩
    by_cases hk : e.1 = pn
    · have hv : e.2 = h := by
        unfold objGet at hget
        rw [List.find?_cons_of_pos] at hget
        · simpa using hget
        · simp [hk]
      have hvp : e.2.pluginName = pn := by
        rw [hwf e (by simp), hk]
      have hes : es.filter (fun x => x.2.pluginName = pn) = [] := by
        apply filter_assoc_nil_of_not_mem pn es (fun x hx => hwf x (by simp [hx]))
        rw [← hk]
        exact hnm
      rw [List.filter_cons]
      have : (decide (e.2.pluginName = pn)) = true := by simp [hvp]
      rw [this]
      simp only [if_true]
      have hpair : e = (pn, h) := by
        cases e with
        | mk k v =>
          simp only at hk hv
          rw [hk, hv]
      rw [hpair, hes]
    · have hget2 : objGet es pn = some h := by
        unfold objGet at hget ⊢
        rw [List.find?_cons_of_neg] at hget
        · exact hget
        · simp [hk]
      have hv : e.2.pluginName ≠ pn := by
        rw [hwf e (by simp)]
        exact hk
      rw [List.filter_cons]
      have : (decide (e.2.pluginName = pn)) = false := by simp [hv]
      rw [this]
      simp only [Bool.false_eq_true, if_false]
      exact ih hnd2 (fun x hx => hwf x (by simp [hx])) hget2

/-- C8 counterexample: with no registered handler and no defaultHandler and
no pluginName, getActionHandler fails with a ParameterError, not with the
NoHandlerError that the claim names; the NoHandlerError of the
specification's taxonomy is never produced. -/
theorem c8_no_handler_error_kind :
    getActionHandlerH gardenTwoPlugins "cleanupEnvironment" none none
      = Except.error (GardenErr.parameterError
          ("No cleanupEnvironment handler configured in environment local." ++
           " Are you missing a provider configuration?")) ∧
    (∀ msg, getActionHandlerH gardenTwoPlugins "cleanupEnvironment" none none
      ≠ Except.error (GardenErr.noHandlerError msg)) := by
  constructor
  · rfl
  · intro msg h
    rw [show getActionHandlerH gardenTwoPlugins "cleanupEnvironment" none none
      = Except.error (GardenErr.parameterError
          ("No cleanupEnvironment handler configured in environment local." ++
           " Are you missing a provider configuration?")) from rfl] at h
    simp at h

/-- C8 amended: getActionHandler with a pluginName returns that plugin's
registered handler for the action type (when the plugin is loaded and
registered one); without a pluginName it returns the handler of the last
plugin registered for the action type; when no handler matches and the
caller supplied a defaultHandler, that defaultHandler is returned with its
pluginName set to the default provider; otherwise the call fails with a
PluginError naming the plugin when a pluginName was supplied, and with a
ParameterError when not (no NoHandlerError exists in the code). -/
theorem c8_dispatch_amended (g : GardenH) (acty : String)
    (inner : List (String × HandlerM))
    (hin : (objGet g.actionHandlers acty).getD [] = inner)
    (hwf : ∀ e ∈ inner, e.2.pluginName = e.1) :
    (∀ pn h, pn ∈ g.loadedPlugins → (inner.map (fun e => e.1)).Nodup →
       objGet inner pn = some h →
       getActionHandlerH g acty (some pn) none = Except.ok h) ∧
    (∀ h rest, inner.map (fun e => e.2) = rest ++ [h] →
       getActionHandlerH g acty none none = Except.ok h) ∧
    (inner = [] → ∀ dh, getActionHandlerH g acty none (some dh)
        = Except.ok { dh with pluginName := defaultProviderName }) ∧
    (inner = [] → getActionHandlerH g acty none none
        = Except.error (GardenErr.parameterError
            ("No " ++ acty ++ " handler configured in environment " ++ g.environmentName ++
             ". Are you missing a provider configuration?"))) ∧
    (∀ pn, pn ∈ g.loadedPlugins → inner.filter (fun e => e.2.pluginName = pn) = [] →
       getActionHandlerH g acty (some pn) none
        = Except.error (GardenErr.pluginError
            ("Plugin " ++ pn ++ " does not have a " ++ acty ++ " handler."))) := by
  refine ⟨?_, ?_, ?_, ?_, ?_⟩
  · intro pn h hload hnd hget
    unfold getActionHandlerH getActionHandlersH filterActionHandlersH getPluginH
    rw [hin]
    simp only [if_pos hload]
    rw [filter_assoc_single pn h inner hnd hwf hget]
    rfl
  · intro h rest hlast
    unfold getActionHandlerH getActionHandlersH filterActionHandlersH
    rw [hin]
    simp only []
    rw [hlast, List.getLast?_append]
    rfl
  · intro hemp dh
    unfold getActionHandlerH getActionHandlersH filterActionHandlersH
    rw [hin, hemp]
    rfl
  · intro hemp
    unfold getActionHandlerH getActionHandlersH filterActionHandlersH
    rw [hin, hemp]
    rfl
  · intro pn hload hfil
    unfold getActionHandlerH getActionHandlersH filterActionHandlersH getPluginH
    rw [hin]
    simp only [if_pos hload]
    rw [hfil]
    rfl

/-- C8 witness: the amended dispatch behaviour evaluated on a garden with
two plugins registered for prepareEnvironment and none for
cleanupEnvironment. -/
theorem c8_dispatch_amended_witness :
    getActionHandlerH gardenTwoPlugins "prepareEnvironment" (some "test-plugin") none
      = Except.ok (HandlerM.mk "test-plugin" "prepareEnvironment") ∧
    getActionHandlerH gardenTwoPlugins "prepareEnvironment" none none
      = Except.ok (HandlerM.mk "test-plugin-b" "prepareEnvironment") ∧
    getActionHandlerH gardenTwoPlugins "cleanupEnvironment" (some "test-plugin") none
      = Except.error (GardenErr.pluginError
          "Plugin test-plugin does not have a cleanupEnvironment handler.") := by
  have h := c8_dispatch_amended gardenTwoPlugins "prepareEnvironment"
    [("test-plugin", HandlerM.mk "test-plugin" "prepareEnvironment"),
     ("test-plugin-b", HandlerM.mk "test-plugin-b" "prepareEnvironment")]
    (by rfl) (by decide)
  have h2 := c8_dispatch_amended gardenTwoPlugins "cleanupEnvironment" [] (by rfl) (by decide)
  refine ⟨?_, ?_, ?_⟩
  · exact h.1 "test-plugin" (HandlerM.mk "test-plugin" "prepareEnvironment")
      (by decide) (by decide) (by rfl)
  · exact h.2.1 (HandlerM.mk "test-plugin-b" "prepareEnvironment")
      [HandlerM.mk "test-plugin" "prepareEnvironment"] (by rfl)
  · exact h2.2.2.2.2 "test-plugin" (by decide) (by rfl)


theorem cgGetNode_serviceMap (st : CGState) (t n m : String) :
    ((cgGetNode st t n m).1).serviceMap = st.serviceMap := by
  unfold cgGetNode
  cases alGet st.index (t, n) <;> rfl

theorem cgGetNode_taskMap (st : CGState) (t n m : String) :
    ((cgGetNode st t n m).1).taskMap = st.taskMap := by
  unfold cgGetNode
  cases alGet st.index (t, n) <;> rfl

theorem cgAddRelation_serviceMap (st : CGState) (d : String × String) (t n m : String) :
    (cgAddRelation st d t n m).serviceMap = st.serviceMap := by
  unfold cgAddRelation cgUpdateNode
  simp [cgGetNode_serviceMap]

theorem cgAddRelation_taskMap (st : CGState) (d : String × String) (t n m : String) :
    (cgAddRelation st d t n m).taskMap = st.taskMap := by
  unfold cgAddRelation cgUpdateNode
  simp [cgGetNode_taskMap]

theorem cgAddDepRelations_missing (depdant : String × String) :
    ∀ (deps : List String) (st : CGState),
    (∃ d ∈ deps, alGet st.serviceMap d = none ∧ alGet st.taskMap d = none) →
    cgAddDepRelations st depdant deps
      = Except.error (GraphErr.typeError cgUndefinedModuleMsg) := by
  intro deps
  induction deps with
  | nil =>
    intro st h
    rcases h with ⟨d, hd, _⟩
    simp at hd
  | cons depName rest ih =>
    intro st h
    unfold cgAddDepRelations
    cases hsv : alGet st.serviceMap depName with
    | some sv =>
      apply ih
      rcases h with ⟨d, hd, hnone⟩
      rcases List.mem_cons.mp hd with hdh | hdt
      · subst hdh
        rw [hsv] at hnone
        exact absurd hnone.1 (by simp)
      · exact ⟨d, hdt, by
          rw [cgAddRelation_serviceMap, cgAddRelation_taskMap]
          exact hnone⟩
    | none =>
      cases htk : alGet st.taskMap depName with
      | some tk =>
        apply ih
        rcases h with ⟨d, hd, hnone⟩
        rcases List.mem_cons.mp hd with hdh | hdt
        · subst hdh
          rw [htk] at hnone
          exact absurd hnone.2 (by simp)
        · exact ⟨d, hdt, by
            rw [cgAddRelation_serviceMap, cgAddRelation_taskMap]
            exact hnone⟩
      | none => rfl

/-- C9 counterexample: a module list whose single service declares the
dependency name nope, which resolves to neither a service nor a task, makes
graph construction fail — but with the JavaScript TypeError raised by
reading .module of the undefined taskMap entry, not with a
ConfigurationError as the claim states. -/
theorem c9_unknown_dep_counterexample :
    constructConfigGraph [moduleBadServiceDep]
      = Except.error (GraphErr.typeError cgUndefinedModuleMsg) ∧
    (∀ msg, constructConfigGraph [moduleBadServiceDep]
      ≠ Except.error (GraphErr.configurationError msg)) := by
  constructor
  · rfl
  · intro msg h
    rw [show constructConfigGraph [moduleBadServiceDep]
      = Except.error (GraphErr.typeError cgUndefinedModuleMsg) from rfl] at h
    simp at h

/-- C9 amended: a declared service, task or test dependency name that
resolves to no already-registered service or task makes ConfigGraph
construction fail, but with a JavaScript TypeError (property module read
from the undefined taskMap entry), not a ConfigurationError: the dependency
loop shared by addService, addTask and addTest errors this way on any
unresolvable name, and the three concrete constructions with an unknown
service, task or test dependency all fail with that TypeError. -/
theorem c9_unknown_dep_amended (st : CGState) (depdant : String × String)
    (deps : List String)
    (hmiss : ∃ d ∈ deps, alGet st.serviceMap d = none ∧ alGet st.taskMap d = none) :
    cgAddDepRelations st depdant deps
      = Except.error (GraphErr.typeError cgUndefinedModuleMsg) ∧
    constructConfigGraph [moduleBadServiceDep]
      = Except.error (GraphErr.typeError cgUndefinedModuleMsg) ∧
    constructConfigGraph [moduleBadTaskDep]
      = Except.error (GraphErr.typeError cgUndefinedModuleMsg) ∧
    constructConfigGraph [moduleBadTestDep]
      = Except.error (GraphErr.typeError cgUndefinedModuleMsg) := by
  exact ⟨cgAddDepRelations_missing depdant deps st hmiss, by rfl, by rfl, by rfl⟩

/-- C9 witness: the amended statement applied to a concrete graph state with
an unresolvable dependency name. -/
theorem c9_unknown_dep_amended_witness :
    cgAddDepRelations cgEmpty ("service", "svc") ["nope"]
      = Except.error (GraphErr.typeError cgUndefinedModuleMsg) ∧
    constructConfigGraph [moduleBadServiceDep]
      = Except.error (GraphErr.typeError cgUndefinedModuleMsg) ∧
    constructConfigGraph [moduleBadTaskDep]
      = Except.error (GraphErr.typeError cgUndefinedModuleMsg) ∧
    constructConfigGraph [moduleBadTestDep]
      = Except.error (GraphErr.typeError cgUndefinedModuleMsg) :=
  c9_unknown_dep_amended cgEmpty ("service", "svc") ["nope"]
    ⟨"nope", by simp, by constructor <;> rfl⟩


theorem find?_map_iidpres (g : Inst → Inst) (hg : ∀ i, (g i).iid = i.iid) (y : Nat) :
    ∀ l : List Inst, (l.map g).find? (fun i => i.iid = y)
      = (l.find? (fun i => i.iid = y)).map g := by
  intro l
  induction l with
  | nil => rfl
  | cons x xs ih =>
    by_cases hx : x.iid = y
    · have h1 : (decide ((g x).iid = y)) = true := by simp [hg, hx]
      have h2 : (decide (x.iid = y)) = true := by simp [hx]
      rw [List.map_cons, List.find?_cons, List.find?_cons, h1, h2]
      rfl
    · have h1 : (decide ((g x).iid = y)) = false := by simp [hg, hx]
      have h2 : (decide (x.iid = y)) = false := by simp [hx]
      rw [List.map_cons, List.find?_cons, List.find?_cons, h1, h2]
      exact ih

theorem find?_updInsts (x y : Nat) (f : Inst → Inst) (hf : ∀ i, (f i).iid = i.iid)
    (l : List Inst) :
    (updInsts l x f).find? (fun i => i.iid = y)
      = (l.find? (fun i => i.iid = y)).map (fun i => if i.iid = x then f i else i) := by
  unfold updInsts
  exact find?_map_iidpres (fun i => if i.iid = x then f i else i)
    (fun i => by by_cases h : i.iid = x <;> simp [h, hf]) y l

theorem find?_append_left {α : Type} (p : α → Bool) (l1 l2 : List α) (a : α)
    (h : l1.find? p = some a) : (l1 ++ l2).find? p = some a := by
  induction l1 with
  | nil => simp at h
  | cons x xs ih =>
    by_cases hx : p x = true
    · rw [List.find?_cons_of_pos _ hx] at h
      rw [List.cons_append, List.find?_cons_of_pos _ hx]
      exact h
    · rw [List.find?_cons_of_neg _ hx] at h
      rw [List.cons_append, List.find?_cons_of_neg _ hx]
      exact ih h

theorem frameAdd_refl (s : Sched) : frameAdd s s := by
  refine ⟨rfl, rfl, rfl, rfl, rfl, Nat.le_refl _, [], by simp, by simp, by simp⟩

theorem frameAdd_trans (s1 s2 s3 : Sched) (h12 : frameAdd s1 s2) (h23 : frameAdd s2 s3) :
    frameAdd s1 s3 := by
  obtain ⟨hc1, hp1, he1, hca1, hl1, hn1, suf1, hi1, hs1, hd1⟩ := h12
  obtain ⟨hc2, hp2, he2, hca2, hl2, hn2, suf2, hi2, hs2, hd2⟩ := h23
  refine ⟨hc2.trans hc1, hp2.trans hp1, he2.trans he1, hca2.trans hca1, hl2.trans hl1,
    hn1.trans hn2, suf1 ++ suf2, ?_, ?_, ?_⟩
  · rw [hi2, hi1, List.append_assoc]
  · intro i hi
    rcases List.mem_append.mp hi with h | h
    · obtain ⟨ha, hb, hcc, hd, he, hf, hg, hh⟩ := hs1 i h
      exact ⟨ha, hb, hcc, hd, he, hf, hg, Nat.lt_of_lt_of_le hh hn2⟩
    · obtain ⟨ha, hb, hcc, hd, he, hf, hg, hh⟩ := hs2 i h
      exact ⟨by rw [ha, hc1], hb, hcc, hd, he, hf, hn1.trans hg, hh⟩
  · rw [List.map_append]
    apply List.Nodup.append hd1 hd2
    intro x hx1 hx2
    rcases List.mem_map.mp hx1 with ⟨i, hi, rfl⟩
    rcases List.mem_map.mp hx2 with ⟨j, hj, hji⟩
    have h1 := (hs1 i hi).2.2.2.2.2.2.2
    have h2 := (hs2 j hj).2.2.2.2.2.2.1
    rw [hji] at h2
    exact absurd (Nat.lt_of_lt_of_le h1 h2) (Nat.lt_irrefl _)

theorem frameAdd_addNodeOne (s : Sched) (t : GTask) :
    frameAdd s (addNodeOne s t).1 := by
  unfold addNodeOne
  cases hp : predecessorOf s t with
  | some ex => exact frameAdd_refl s
  | none =>
    by_cases hc : (cacheGet s.cache t.baseKey).isSome ∧ t.force = false
    · simp only [if_pos hc]
      exact frameAdd_refl s
    · simp only [if_neg hc]
      by_cases hk : ((s.live.filter (fun n => n.task.key = t.key)).isEmpty = false)
      · simp only [if_pos hk]
        exact frameAdd_refl s
      · simp only [if_neg hk]
        refine ⟨rfl, rfl, rfl, rfl, rfl, Nat.le_succ _,
          [Inst.mk s.nextId t s.clock none [] none false false false], rfl, ?_, by simp⟩
        intro i hi
        have : i = Inst.mk s.nextId t s.clock none [] none false false false := by
          simpa using hi
        subst this
        exact ⟨rfl, rfl, rfl, rfl, rfl, rfl, Nat.le_refl _, Nat.lt_succ_self _⟩

theorem frameAdd_depCache (s : Sched) (d : List (String × List String)) :
    frameAdd s { s with depCache := d } := by
  refine ⟨rfl, rfl, rfl, rfl, rfl, Nat.le_refl _, [], by simp, by simp, by simp⟩

theorem addNodeWithDeps_succ (E : List GTask) (f : Nat) (t : GTask) (s : Sched) :
    addNodeWithDeps E (Nat.succ f) t s =
      (match addNodeOne s t with
       | (s1, none) => s1
       | (s1, some u) =>
         addDepsList E f (u.depKeys.filterMap (fun k => E.find? (fun e => e.key = k)))
           { s1 with depCache := objSet u.key ((u.depKeys.filterMap (fun k => E.find? (fun e => e.key = k))).map (fun d => d.baseKey)) s1.depCache }) := rfl

theorem frameAdd_add (E : List GTask) : ∀ fuel : Nat,
    (∀ t s, frameAdd s (addNodeWithDeps E fuel t s)) ∧
    (∀ ds s, frameAdd s (addDepsList E fuel ds s)) := by
  intro fuel
  induction fuel with
  | zero =>
    constructor
    · intro t s
      exact frameAdd_refl s
    · intro ds s
      exact frameAdd_refl s
  | succ f ih =>
    constructor
    · intro t s
      rw [addNodeWithDeps_succ]
      cases ha : addNodeOne s t with
      | mk s1 cont =>
        have hf1 : frameAdd s s1 := by
          have := frameAdd_addNodeOne s t
          rw [ha] at this
          exact this
        cases cont with
        | none => exact hf1
        | some u =>
          refine frameAdd_trans s s1 _ hf1 ?_
          refine frameAdd_trans s1 _ _ ?_ (ih.2 _ _)
          exact frameAdd_depCache s1
            (objSet u.key ((u.depKeys.filterMap (fun k => E.find? (fun e => e.key = k))).map
              (fun d => d.baseKey)) s1.depCache)
    · intro ds s
      cases ds with
      | nil => exact frameAdd_refl s
      | cons d rest =>
        exact frameAdd_trans s _ _ (ih.1 d s) (ih.2 rest _)

theorem addEnv_mem (E : List GTask) : ∀ fuel : Nat,
    (∀ t s, t ∈ E → (∀ i ∈ s.insts, i.task ∈ E) →
      ∀ i ∈ (addNodeWithDeps E fuel t s).insts, i.task ∈ E) ∧
    (∀ (ds : List GTask) s, (∀ d ∈ ds, d ∈ E) → (∀ i ∈ s.insts, i.task ∈ E) →
      ∀ i ∈ (addDepsList E fuel ds s).insts, i.task ∈ E) := by
  intro fuel
  induction fuel with
  | zero =>
    constructor
    · intro t s _ hs i hi
      exact hs i hi
    · intro ds s _ hs i hi
      exact hs i hi
  | succ f ih =>
    have hdepE : ∀ u : GTask, ∀ d ∈ u.depKeys.filterMap (fun k => E.find? (fun e => e.key = k)), d ∈ E := by
      intro u d hd
      rcases List.mem_filterMap.mp hd with ⟨k2, _, hfind⟩
      exact List.mem_of_find?_eq_some hfind
    constructor
    · intro t s ht hs i hi
      rw [addNodeWithDeps_succ] at hi
      revert hi
      unfold addNodeOne
      cases hp : predecessorOf s t with
      | some ex =>
        intro hi
        have hex : ex.task ∈ E := by
          have hmem0 := List.mem_of_mem_getLast? hp
          have hmem1 : ex ∈ s.insts :=
            List.mem_of_mem_filter (List.mem_of_mem_filter hmem0)
          exact hs ex hmem1
        refine ih.2 _ _ (hdepE ex.task) ?_ i hi
        intro j hj
        exact hs j hj
      | none =>
        by_cases hc : (cacheGet s.cache t.baseKey).isSome ∧ t.force = false
        · simp only [if_pos hc]
          intro hi
          exact hs i hi
        · simp only [if_neg hc]
          by_cases hk : ((s.live.filter (fun n => n.task.key = t.key)).isEmpty = false)
          · simp only [hk, if_true]
            intro hi
            refine ih.2 _ _ (hdepE t) ?_ i hi
            intro j hj
            exact hs j hj
          · simp only [hk, if_false]
            intro hi
            refine ih.2 _ _ (hdepE t) ?_ i hi
            intro j hj
            rcases List.mem_append.mp hj with h | h
            · exact hs j h
            · have : j = Inst.mk s.nextId t s.clock none [] none false false false := by
                simpa using h
              subst this
              exact ht
    · intro ds s hds hs i hi
      cases ds with
      | nil => exact hs i hi
      | cons d rest =>
        refine ih.2 rest _ (fun x hx => hds x (by simp [hx])) ?_ i hi
        exact ih.1 d s (hds d (by simp)) hs

/-! ### Scheduler invariant: helper lemmas -/

/-- find? by identity returns the member itself when identities are nodup. -/
theorem find?_eq_of_nodup (l : List Inst) (hnd : (l.map (fun i => i.iid)).Nodup)
    (i : Inst) (hi : i ∈ l) : l.find? (fun j => j.iid = i.iid) = some i := by
  induction l with
  | nil => exact absurd hi (List.not_mem_nil i)
  | cons x xs ih =>
    rw [List.map_cons, List.nodup_cons] at hnd
    rcases List.mem_cons.mp hi with h | h
    · subst h
      exact List.find?_cons_of_pos _ (by simp)
    · have hx : (decide (x.iid = i.iid)) = false := by
        rw [decide_eq_false_iff_not]
        intro he
        apply hnd.1
        rw [he]
        exact List.mem_map.mpr ⟨i, h, rfl⟩
      rw [List.find?_cons, hx]
      exact ih hnd.2 h

theorem instById_mem {s : Sched} {x : Nat} {i : Inst} (h : instById s x = some i) :
    i ∈ s.insts := List.mem_of_find?_eq_some h

theorem instById_iid {s : Sched} {x : Nat} {i : Inst} (h : instById s x = some i) :
    i.iid = x := by
  unfold instById at h
  exact of_decide_eq_true (@List.find?_some Inst (fun j => decide (j.iid = x)) i s.insts h)

theorem instById_eq_of_mem (s : Sched) (hnd : (s.insts.map (fun i => i.iid)).Nodup)
    (i : Inst) (hi : i ∈ s.insts) : instById s i.iid = some i :=
  find?_eq_of_nodup s.insts hnd i hi

theorem inst_eq_of_iid_eq {s : Sched} (hnd : (s.insts.map (fun i => i.iid)).Nodup)
    {a b : Inst} (ha : a ∈ s.insts) (hb : b ∈ s.insts) (h : a.iid = b.iid) : a = b :=
  List.inj_on_of_nodup_map hnd ha hb h

/-- taskError counting distributes over appended event logs. -/
theorem errCount_append (l1 l2 : List Ev) (x : Nat) :
    errCount (l1 ++ l2) x = errCount l1 x + errCount l2 x := by
  unfold errCount
  rw [List.filter_append, List.length_append]

theorem errCount_one_pending (k : String) (n x : Nat) : errCount [Ev.pending k n] x = 0 := rfl

theorem errCount_one_complete (r : TaskResultM) (x : Nat) :
    errCount [Ev.complete r] x = 0 := rfl

theorem errCount_one_graphProcessing (n x : Nat) :
    errCount [Ev.graphProcessing n] x = 0 := rfl

theorem errCount_one_graphComplete (n x : Nat) :
    errCount [Ev.graphComplete n] x = 0 := rfl

theorem errCount_one_error (r : TaskResultM) (x : Nat) :
    errCount [Ev.error r] x = if r.iid = x then 1 else 0 := by
  by_cases h : r.iid = x <;> simp [errCount, h]

theorem map_iid_of_pres (g : Inst → Inst) (hg : ∀ i, (g i).iid = i.iid) (l : List Inst) :
    (l.map g).map (fun i => i.iid) = l.map (fun i => i.iid) := by
  rw [List.map_map]
  exact List.map_congr_left (fun i _ => hg i)

theorem filterMap_opt_map {α β : Type} (h1 h2 : α → Option β) (g : β → β) (l : List α)
    (hyp : ∀ a ∈ l, h2 a = (h1 a).map g) :
    l.filterMap h2 = (l.filterMap h1).map g := by
  rw [List.map_filterMap]
  exact List.filterMap_congr hyp

theorem length_filter_map_pres {α : Type} (g : α → α) (p : α → Bool)
    (hg : ∀ a, p (g a) = p a) (l : List α) :
    ((l.map g).filter p).length = (l.filter p).length := by
  rw [List.filter_map, List.length_map]
  exact congrArg List.length (List.filter_congr (fun a _ => hg a))

/-- The initial scheduler state satisfies the reachability invariant. -/
theorem inv_init (E : List GTask) (climit : Nat) : globalInv E (initSched climit) := by
  refine ⟨⟨List.nodup_nil, ?_⟩, ?_, List.nodup_nil, ?_, ?_, ?_, Nat.zero_le _,
    ?_, ?_, ?_, ?_, ?_⟩
  · intro i hi
    exact absurd hi (List.not_mem_nil i)
  · intro i hi
    exact absurd hi (List.not_mem_nil i)
  · intro j hj
    exact absurd hj (List.not_mem_nil j)
  · intro i hi
    exact absurd hi (List.not_mem_nil i)
  · intro a ha
    exact absurd ha (List.not_mem_nil a)
  · intro ty k hk hall
    exact Nat.zero_le k
  · intro i hi
    exact absurd hi (List.not_mem_nil i)
  · intro i hi
    exact absurd hi (List.not_mem_nil i)
  · intro i hi
    exact absurd hi (List.not_mem_nil i)
  · intro x hx
    rfl

/-- Loop entry preserves the reachability invariant. -/
theorem inv_step_looper (E : List GTask) (s : Sched) (inv : globalInv E s) :
    globalInv E (stepLoopEnter s) := by
  obtain ⟨hiid, htime, hndp, hinp, htask, hdep, hlen, hpt, hfr, hcr, herr1, herr2⟩ := inv
  unfold stepLoopEnter
  split
  · refine ⟨hiid, ?_, hndp, hinp, htask, hdep, hlen, hpt, hfr, hcr, ?_, ?_⟩
    · intro i hi
      obtain ⟨h1, h2, h3⟩ := htime i hi
      exact ⟨Nat.lt_succ_of_lt h1, fun ts hts => Nat.lt_succ_of_lt (h2 ts hts),
        fun tc htc => Nat.lt_succ_of_lt (h3 tc htc)⟩
    · intro i hi
      show errCount (s.events ++ [Ev.graphComplete s.clock]) i.iid = _
      rw [errCount_append, errCount_one_graphComplete, Nat.add_zero]
      exact herr1 i hi
    · intro x hx
      show errCount (s.events ++ [Ev.graphComplete s.clock]) x = 0
      rw [errCount_append, errCount_one_graphComplete, Nat.add_zero]
      exact herr2 x hx
  · refine ⟨hiid, ?_, hndp, hinp, htask, hdep, hlen, hpt, hfr, hcr, ?_, ?_⟩
    · intro i hi
      obtain ⟨h1, h2, h3⟩ := htime i hi
      exact ⟨Nat.lt_succ_of_lt h1, fun ts hts => Nat.lt_succ_of_lt (h2 ts hts),
        fun tc htc => Nat.lt_succ_of_lt (h3 tc htc)⟩
    · intro i hi
      show errCount (s.events ++ [Ev.graphProcessing s.clock]) i.iid = _
      rw [errCount_append, errCount_one_graphProcessing, Nat.add_zero]
      exact herr1 i hi
    · intro x hx
      show errCount (s.events ++ [Ev.graphProcessing s.clock]) x = 0
      rw [errCount_append, errCount_one_graphProcessing, Nat.add_zero]
      exact herr2 x hx

/-- The invariant is preserved by a pump step of the add path: one
non-error event is appended, the frame of the add path holds from the
event-extended state, every new instance carries a task of the
environment, and the clock then advances. -/
theorem globalInv_of_frame (E : List GTask) (s s1 : Sched) (ev : Ev)
    (hev : ∀ x, errCount [ev] x = 0)
    (hframe : frameAdd { s with events := s.events ++ [ev] } s1)
    (hE : ∀ i ∈ s1.insts, i.task ∈ E)
    (inv : globalInv E s) : globalInv E { s1 with clock := s1.clock + 1 } := by
  obtain ⟨hiid, htime, hndp, hinp, htask, hdep, hlen, hpt, hfr, hcr, herr1, herr2⟩ := inv
  obtain ⟨hclock0, hinprog0, hevents0, hcache0, hclimit0, hnext0, suf, hinsts0, hsuf0,
    hsufnd⟩ := hframe
  have hclock : s1.clock = s.clock := hclock0
  have hinprog : s1.inProg = s.inProg := hinprog0
  have hevents : s1.events = s.events ++ [ev] := hevents0
  have hclimit : s1.climit = s.climit := hclimit0
  have hnext : s.nextId ≤ s1.nextId := hnext0
  have hinsts : s1.insts = s.insts ++ suf := hinsts0
  have hsuf : ∀ i ∈ suf, i.addedAt = s.clock ∧ i.startedAt = none ∧ i.completedAt = none ∧
      i.removed = false ∧ i.failed = false ∧ i.cancelled = false ∧
      s.nextId ≤ i.iid ∧ i.iid < s1.nextId := hsuf0
  refine ⟨⟨?_, ?_⟩, ?_, ?_, ?_, ?_, ?_, ?_, ?_, ?_, ?_, ?_, ?_⟩
  · show ((s1.insts.map (fun i => i.iid)).Nodup)
    rw [hinsts, List.map_append, List.nodup_append]
    refine ⟨hiid.1, hsufnd, ?_⟩
    intro a ha hb
    rcases List.mem_map.mp ha with ⟨ia, hia, rfl⟩
    rcases List.mem_map.mp hb with ⟨ib, hib, hba⟩
    have h1 := hiid.2 ia hia
    have h2 := (hsuf ib hib).2.2.2.2.2.2.1
    rw [hba] at h2
    exact absurd h1 (Nat.not_lt_of_le h2)
  · intro i hi
    have hi2 : i ∈ s.insts ++ suf := by rw [← hinsts]; exact hi
    rcases List.mem_append.mp hi2 with h | h
    · exact Nat.lt_of_lt_of_le (hiid.2 i h) hnext
    · exact (hsuf i h).2.2.2.2.2.2.2
  · intro i hi
    have hi2 : i ∈ s.insts ++ suf := by rw [← hinsts]; exact hi
    show i.addedAt < s1.clock + 1 ∧ (∀ ts, i.startedAt = some ts → ts < s1.clock + 1) ∧
      (∀ tc, i.completedAt = some tc → tc < s1.clock + 1)
    rw [hclock]
    rcases List.mem_append.mp hi2 with h | h
    · obtain ⟨h1, h2, h3⟩ := htime i h
      exact ⟨Nat.lt_succ_of_lt h1, fun ts hts => Nat.lt_succ_of_lt (h2 ts hts),
        fun tc htc => Nat.lt_succ_of_lt (h3 tc htc)⟩
    · obtain ⟨ha, hs', hc, _⟩ := hsuf i h
      refine ⟨?_, ?_, ?_⟩
      · rw [ha]
        exact Nat.lt_succ_self _
      · intro ts hts
        rw [hs'] at hts
        cases hts
      · intro tc htc
        rw [hc] at htc
        cases htc
  · show s1.inProg.Nodup
    rw [hinprog]
    exact hndp
  · intro j hj
    have hj2 : j ∈ s.inProg := by rw [← hinprog]; exact hj
    obtain ⟨i, hI, h1, h2, h3, h4⟩ := hinp j hj2
    refine ⟨i, ?_, h1, h2, h3, h4⟩
    show s1.insts.find? (fun k => k.iid = j) = some i
    rw [hinsts]
    exact find?_append_left _ _ _ _ hI
  · exact hE
  · intro a ha b hb tb hstart hdak hadd
    have ha2 : a ∈ s.insts ++ suf := by rw [← hinsts]; exact ha
    have hb2 : b ∈ s.insts ++ suf := by rw [← hinsts]; exact hb
    rcases List.mem_append.mp hb2 with hbo | hbs
    · rcases List.mem_append.mp ha2 with hao | has
      · exact hdep a hao b hbo tb hstart hdak hadd
      · obtain ⟨haa, _⟩ := hsuf a has
        have htb := (htime b hbo).2.1 tb hstart
        rw [haa] at hadd
        exact absurd (Nat.lt_of_le_of_lt hadd htb) (Nat.lt_irrefl _)
    · obtain ⟨_, hbs', _⟩ := hsuf b hbs
      rw [hbs'] at hstart
      cases hstart
  · show s1.inProg.length ≤ s1.climit
    rw [hinprog, hclimit]
    exact hlen
  · intro ty k hk hall
    have hpoint : ∀ j ∈ s.inProg,
        instById { s1 with clock := s1.clock + 1 } j = instById s j := by
      intro j hj
      obtain ⟨i, hI, _, _, _, _⟩ := hinp j hj
      have hA : instById { s1 with clock := s1.clock + 1 } j = some i := by
        show s1.insts.find? (fun k => k.iid = j) = some i
        rw [hinsts]
        exact find?_append_left _ _ _ _ hI
      rw [hA, hI]
    have hII : inProgInsts { s1 with clock := s1.clock + 1 } = inProgInsts s := by
      show s1.inProg.filterMap (fun j => instById { s1 with clock := s1.clock + 1 } j)
        = s.inProg.filterMap (fun j => instById s j)
      rw [hinprog]
      exact List.filterMap_congr hpoint
    show ((inProgInsts { s1 with clock := s1.clock + 1 }).filter
      (fun i => i.task.tType = ty ∧ sameTypeParent i.task = false)).length ≤ k
    rw [hII]
    exact hpt ty k hk hall
  · intro i hi hfl
    have hi2 : i ∈ s.insts ++ suf := by rw [← hinsts]; exact hi
    rcases List.mem_append.mp hi2 with h | h
    · exact hfr i h hfl
    · obtain ⟨_, _, _, _, hf, _⟩ := hsuf i h
      rw [hf] at hfl
      cases hfl
  · intro i hi hcs
    have hi2 : i ∈ s.insts ++ suf := by rw [← hinsts]; exact hi
    rcases List.mem_append.mp hi2 with h | h
    · exact hcr i h hcs
    · obtain ⟨_, _, hc, _⟩ := hsuf i h
      rw [hc] at hcs
      cases hcs
  · intro i hi
    have hi2 : i ∈ s.insts ++ suf := by rw [← hinsts]; exact hi
    have hev2 : errCount { s1 with clock := s1.clock + 1 }.events i.iid
        = errCount s.events i.iid := by
      show errCount s1.events i.iid = _
      rw [hevents, errCount_append, hev i.iid, Nat.add_zero]
    rw [hev2]
    rcases List.mem_append.mp hi2 with h | h
    · exact herr1 i h
    · obtain ⟨_, _, _, _, hf, _, hge, _⟩ := hsuf i h
      have h0 := herr2 i.iid hge
      rw [h0, hf]
      rfl
  · intro x hx
    have hx2 : s.nextId ≤ x := Nat.le_trans hnext hx
    show errCount s1.events x = 0
    rw [hevents, errCount_append, hev x, Nat.add_zero]
    exact herr2 x hx2

/-- Task submission preserves the reachability invariant. -/
theorem inv_step_add (E : List GTask) (s : Sched) (t : GTask) (fuel : Nat)
    (ht : t ∈ E) (inv : globalInv E s) : globalInv E (stepAddTask E fuel t s) := by
  have hframe := (frameAdd_add E fuel).1 t
    { s with events := s.events ++ [Ev.pending t.key s.clock] }
  have hE : ∀ i ∈ (addNodeWithDeps E fuel t
      { s with events := s.events ++ [Ev.pending t.key s.clock] }).insts, i.task ∈ E := by
    refine (addEnv_mem E fuel).1 t _ ht ?_
    intro i hi
    exact inv.2.2.2.2.1 i hi
  exact globalInv_of_frame E s _ (Ev.pending t.key s.clock)
    (fun x => errCount_one_pending t.key s.clock x) hframe hE inv

theorem mem_updInsts {l : List Inst} {x : Nat} {f : Inst → Inst} {i : Inst}
    (h : i ∈ updInsts l x f) :
    ∃ j ∈ l, i = if j.iid = x then f j else j := by
  rcases List.mem_map.mp h with ⟨j, hj, hji⟩
  exact ⟨j, hj, hji.symm⟩

/-- Field behaviour of the per-instance update of a start step. -/
theorem startG_fields (iid now : Nat) (dc : List (String × List String)) (j : Inst) :
    ((if j.iid = iid then setStartedInst j now (lookupDeps dc j.task.key) else j).iid
      = j.iid) ∧
    ((if j.iid = iid then setStartedInst j now (lookupDeps dc j.task.key) else j).task
      = j.task) ∧
    ((if j.iid = iid then setStartedInst j now (lookupDeps dc j.task.key) else j).addedAt
      = j.addedAt) ∧
    ((if j.iid = iid then setStartedInst j now (lookupDeps dc j.task.key) else j).completedAt
      = j.completedAt) ∧
    ((if j.iid = iid then setStartedInst j now (lookupDeps dc j.task.key) else j).removed
      = j.removed) ∧
    ((if j.iid = iid then setStartedInst j now (lookupDeps dc j.task.key) else j).failed
      = j.failed) := by
  by_cases hx : j.iid = iid <;> simp [hx, setStartedInst]

/-- A root start of the processing loop preserves the reachability invariant. -/
theorem inv_step_start (E : List GTask) (s : Sched) (iid : Nat) (i : Inst)
    (hi : instById s iid = some i) (hc : canStartB s i = true)
    (inv : globalInv E s) : globalInv E (stepStart s iid) := by
  obtain ⟨hiid, htime, hndp, hinp, htask, hdep, hlen, hpt, hfr, hcr, herr1, herr2⟩ := inv
  have hiI : i ∈ s.insts := instById_mem hi
  have hiiid : i.iid = iid := instById_iid hi
  unfold canStartB at hc
  rw [Bool.and_eq_true, Bool.and_eq_true, Bool.and_eq_true, Bool.and_eq_true] at hc
  obtain ⟨⟨⟨⟨hrm0, hnpc0⟩, hdeps0⟩, hlen20⟩, hguard⟩ := hc
  have hrm : i.removed = false := of_decide_eq_true hrm0
  have hnotin0 : i.iid ∉ s.inProg := by simpa using hnpc0
  have hnotin : iid ∉ s.inProg := hiiid ▸ hnotin0
  have hlen2 : s.inProg.length < s.climit := of_decide_eq_true hlen20
  have hById : ∀ (y : Nat), instById (stepStart s iid) y
      = (instById s y).map (fun i0 => if i0.iid = iid
          then setStartedInst i0 s.clock (lookupDeps s.depCache i0.task.key) else i0) :=
    fun y => find?_updInsts iid y
      (fun i0 => setStartedInst i0 s.clock (lookupDeps s.depCache i0.task.key))
      (fun i0 => rfl) s.insts
  have hpres : ∀ j : Inst,
      ((if j.iid = iid then setStartedInst j s.clock (lookupDeps s.depCache j.task.key)
        else j)).iid = j.iid :=
    fun j => (startG_fields iid s.clock s.depCache j).1
  have hmapiid : (updInsts s.insts iid
      (fun j0 => setStartedInst j0 s.clock (lookupDeps s.depCache j0.task.key))).map
        (fun i0 => i0.iid) = s.insts.map (fun i0 => i0.iid) := by
    unfold updInsts
    exact map_iid_of_pres _ hpres s.insts
  refine ⟨⟨?_, ?_⟩, ?_, ?_, ?_, ?_, ?_, ?_, ?_, ?_, ?_, ?_, ?_⟩
  · show ((updInsts s.insts iid
      (fun j0 => setStartedInst j0 s.clock (lookupDeps s.depCache j0.task.key))).map
        (fun i0 => i0.iid)).Nodup
    rw [hmapiid]
    exact hiid.1
  · intro i2 hi2
    obtain ⟨j, hj, hij⟩ := mem_updInsts hi2
    have he : i2.iid = j.iid := by
      rw [hij]
      exact hpres j
    rw [he]
    exact hiid.2 j hj
  · intro i2 hi2
    obtain ⟨j, hj, hij⟩ := mem_updInsts hi2
    obtain ⟨h1, h2, h3⟩ := htime j hj
    show i2.addedAt < s.clock + 1 ∧ (∀ ts, i2.startedAt = some ts → ts < s.clock + 1) ∧
      (∀ tc, i2.completedAt = some tc → tc < s.clock + 1)
    by_cases hx : j.iid = iid
    · rw [if_pos hx] at hij
      subst hij
      refine ⟨Nat.lt_succ_of_lt h1, ?_, ?_⟩
      · intro ts hts
        have h5 : s.clock = ts := Option.some.inj hts
        rw [← h5]
        exact Nat.lt_succ_self _
      · intro tc htc
        exact Nat.lt_succ_of_lt (h3 tc htc)
    · rw [if_neg hx] at hij
      subst hij
      exact ⟨Nat.lt_succ_of_lt h1, fun ts hts => Nat.lt_succ_of_lt (h2 ts hts),
        fun tc htc => Nat.lt_succ_of_lt (h3 tc htc)⟩
  · show (s.inProg ++ [iid]).Nodup
    rw [List.nodup_append]
    refine ⟨hndp, List.nodup_singleton iid, ?_⟩
    intro a ha hb
    rw [List.mem_singleton] at hb
    subst hb
    exact hnotin ha
  · intro j hj
    rcases List.mem_append.mp (show j ∈ s.inProg ++ [iid] from hj) with hjo | hjn
    · obtain ⟨i0, hI0, ha, hb, hcc, hd⟩ := hinp j hjo
      have hji : j ≠ iid := fun h => hnotin (h ▸ hjo)
      have hi0iid : i0.iid = j := instById_iid hI0
      refine ⟨i0, ?_, ha, hb, hcc, hd⟩
      rw [hById j, hI0, Option.map_some']
      rw [if_neg (by rw [hi0iid]; exact hji)]
    · rw [List.mem_singleton] at hjn
      subst hjn
      refine ⟨setStartedInst i s.clock (lookupDeps s.depCache i.task.key), ?_, ?_, ?_, ?_, ?_⟩
      · rw [hById j, hi, Option.map_some', if_pos hiiid]
      · exact hrm
      · rfl
      · show i.completedAt = none
        cases hcomp : i.completedAt with
        | none => rfl
        | some v =>
          have h5 := hcr i hiI (by rw [hcomp]; rfl)
          rw [hrm] at h5
          cases h5
      · show i.failed = false
        cases hfail : i.failed with
        | false => rfl
        | true =>
          have h5 := hfr i hiI hfail
          rw [hrm] at h5
          cases h5
  · intro i2 hi2
    obtain ⟨j, hj, hij⟩ := mem_updInsts hi2
    have he : i2.task = j.task := by
      rw [hij]
      exact (startG_fields iid s.clock s.depCache j).2.1
    rw [he]
    exact htask j hj
  · intro a2 ha2 b2 hb2 tb hstart hdak hadd
    obtain ⟨a0, ha0, hija⟩ := mem_updInsts ha2
    obtain ⟨b0, hb0, hijb⟩ := mem_updInsts hb2
    obtain ⟨_, hat, haa, hacomp, harm, _⟩ := startG_fields iid s.clock s.depCache a0
    rw [← hija] at hat haa hacomp harm
    by_cases hbx : b0.iid = iid
    · rw [if_pos hbx] at hijb
      have hb0i : b0 = i := inst_eq_of_iid_eq hiid.1 hb0 hiI (by rw [hbx, hiiid])
      have hts : tb = s.clock := by
        rw [hijb] at hstart
        exact (Option.some.inj hstart).symm
      have hdak2 : a0.task.baseKey ∈ lookupDeps s.depCache b0.task.key := by
        rw [hat] at hdak
        rw [hijb] at hdak
        exact hdak
      by_cases harm0 : a0.removed = true
      · constructor
        · rw [harm]
          exact harm0
        · intro ca hca
          rw [hacomp] at hca
          have h6 := (htime a0 ha0).2.2 ca hca
          rw [hts]
          exact h6
      · exfalso
        have harm1 : a0.removed = false := by
          cases h : a0.removed with
          | false => rfl
          | true => exact absurd h harm0
        have haLive : a0 ∈ s.live := by
          unfold Sched.live
          rw [List.mem_filter]
          exact ⟨ha0, by simp [harm1]⟩
        rw [hb0i] at hdak2
        have haDeps : a0 ∈ liveDeps s i := by
          unfold liveDeps
          rw [List.mem_filter]
          exact ⟨haLive, decide_eq_true hdak2⟩
        rw [List.isEmpty_iff] at hdeps0
        rw [hdeps0] at haDeps
        exact absurd haDeps (List.not_mem_nil a0)
    · rw [if_neg hbx] at hijb
      have hstart2 : b0.startedAt = some tb := by
        rw [hijb] at hstart
        exact hstart
      have hdak2 : a0.task.baseKey ∈ b0.depsAtStart := by
        rw [hat] at hdak
        rw [hijb] at hdak
        exact hdak
      have hadd2 : a0.addedAt ≤ tb := by
        rw [haa] at hadd
        exact hadd
      obtain ⟨hrm2, hca2⟩ := hdep a0 ha0 b0 hb0 tb hstart2 hdak2 hadd2
      constructor
      · rw [harm]
        exact hrm2
      · intro ca hca
        rw [hacomp] at hca
        exact hca2 ca hca
  · show (s.inProg ++ [iid]).length ≤ s.climit
    rw [List.length_append]
    exact hlen2
  · intro ty k hk hall
    have h1 : instById (stepStart s iid) iid
        = some (setStartedInst i s.clock (lookupDeps s.depCache i.task.key)) := by
      rw [hById iid, hi, Option.map_some', if_pos hiiid]
    have hII : inProgInsts (stepStart s iid)
        = (inProgInsts s).map (fun i0 => if i0.iid = iid
            then setStartedInst i0 s.clock (lookupDeps s.depCache i0.task.key) else i0)
          ++ [setStartedInst i s.clock (lookupDeps s.depCache i.task.key)] := by
      show (s.inProg ++ [iid]).filterMap (fun j => instById (stepStart s iid) j) = _
      rw [List.filterMap_append]
      rw [filterMap_opt_map (fun j => instById s j)
        (fun j => instById (stepStart s iid) j)
        (fun i0 => if i0.iid = iid
          then setStartedInst i0 s.clock (lookupDeps s.depCache i0.task.key) else i0)
        s.inProg (fun j _ => hById j)]
      congr 1
      simp [List.filterMap_cons, h1]
    show ((inProgInsts (stepStart s iid)).filter
      (fun i0 => i0.task.tType = ty ∧ sameTypeParent i0.task = false)).length ≤ k
    rw [hII, List.filter_append, List.length_append]
    have hlen3 := length_filter_map_pres
      (fun i0 : Inst => if i0.iid = iid
        then setStartedInst i0 s.clock (lookupDeps s.depCache i0.task.key) else i0)
      (fun i0 : Inst => decide (i0.task.tType = ty ∧ sameTypeParent i0.task = false))
      (fun a => by by_cases hx : a.iid = iid <;> simp [hx, setStartedInst])
      (inProgInsts s)
    rw [hlen3]
    by_cases hpi : i.task.tType = ty ∧ sameTypeParent i.task = false
    · have hone : ([setStartedInst i s.clock (lookupDeps s.depCache i.task.key)].filter
          (fun i0 => decide (i0.task.tType = ty ∧ sameTypeParent i0.task = false))).length
          = 1 := by
        simp [List.filter, setStartedInst, hpi.1, hpi.2]
      rw [hone]
      have hiE : i.task ∈ E := htask i hiI
      have hlimk : i.task.limit = k := hall i.task hiE hpi.1
      have hlim0 : i.task.limit ≠ 0 := by
        rw [hlimk]
        omega
      have hguard2 : typeCount s i.task.tType < i.task.limit := by
        rw [if_pos ⟨hlim0, hpi.2⟩] at hguard
        exact of_decide_eq_true hguard
      have hfinal : typeCount s ty < k := by
        rw [hpi.1, hlimk] at hguard2
        exact hguard2
      have hne : nonExemptCount s ty ≤ typeCount s ty := by
        unfold nonExemptCount typeCount
        refine length_filter_le_of_imp _ _ ?_ (inProgInsts s)
        intro a ha
        simp at ha ⊢
        exact ha.1
      exact Nat.lt_of_le_of_lt hne hfinal
    · have hzero : ([setStartedInst i s.clock (lookupDeps s.depCache i.task.key)].filter
          (fun i0 => decide (i0.task.tType = ty ∧ sameTypeParent i0.task = false))).length
          = 0 := by
        simp [List.filter, setStartedInst, hpi]
      rw [hzero, Nat.add_zero]
      exact hpt ty k hk hall
  · intro i2 hi2 hfl
    obtain ⟨j, hj, hij⟩ := mem_updInsts hi2
    obtain ⟨_, _, _, _, hrmF, hflF⟩ := startG_fields iid s.clock s.depCache j
    rw [← hij] at hrmF hflF
    rw [hrmF]
    rw [hflF] at hfl
    exact hfr j hj hfl
  · intro i2 hi2 hcs
    obtain ⟨_, hj, hij⟩ := mem_updInsts hi2
    obtain ⟨_, _, _, hcF, hrmF, _⟩ := startG_fields iid s.clock s.depCache _
    rw [← hij] at hcF hrmF
    rw [hrmF]
    rw [hcF] at hcs
    exact hcr _ hj hcs
  · intro i2 hi2
    obtain ⟨j, hj, hij⟩ := mem_updInsts hi2
    have he : i2.iid = j.iid := by
      rw [hij]
      exact hpres j
    obtain ⟨_, _, _, _, _, hflF⟩ := startG_fields iid s.clock s.depCache j
    rw [← hij] at hflF
    show errCount s.events i2.iid = if i2.failed then 1 else 0
    rw [he, hflF]
    exact herr1 j hj
  · intro x hx
    exact herr2 x hx

/-- Field behaviour of the per-instance update of a settlement step. -/
theorem doneG_fields (iid now : Nat) (err : Bool) (j : Inst) :
    ((if j.iid = iid then setDoneInst j now err else j).iid = j.iid) ∧
    ((if j.iid = iid then setDoneInst j now err else j).task = j.task) ∧
    ((if j.iid = iid then setDoneInst j now err else j).addedAt = j.addedAt) ∧
    ((if j.iid = iid then setDoneInst j now err else j).startedAt = j.startedAt) ∧
    ((if j.iid = iid then setDoneInst j now err else j).depsAtStart = j.depsAtStart) := by
  by_cases hx : j.iid = iid <;> simp [hx, setDoneInst]

/-- Successful settlement preserves the reachability invariant. -/
theorem inv_step_done (E : List GTask) (s : Sched) (iid : Nat)
    (hp : iid ∈ s.inProg) (inv : globalInv E s) : globalInv E (stepDone s iid) := by
  obtain ⟨hiid, htime, hndp, hinp, htask, hdep, hlen, hpt, hfr, hcr, herr1, herr2⟩ := inv
  obtain ⟨i, hI, hirm, hist, hicp, hifl⟩ := hinp iid hp
  have hiI : i ∈ s.insts := instById_mem hI
  have hiiid : i.iid = iid := instById_iid hI
  have hsd : stepDone s iid = { s with
      insts := updInsts s.insts iid (fun j => setDoneInst j s.clock false),
      inProg := s.inProg.filter (fun j => j ≠ iid),
      cache := cachePut (resultOf i s.clock false) s.cache,
      events := s.events ++ [Ev.complete (resultOf i s.clock false)],
      clock := s.clock + 1 } := by
    unfold stepDone
    rw [hI]
  rw [hsd]
  have hById : ∀ (y : Nat),
      (updInsts s.insts iid (fun j => setDoneInst j s.clock false)).find?
        (fun k => k.iid = y)
      = (instById s y).map (fun j => if j.iid = iid then setDoneInst j s.clock false
          else j) :=
    fun y => find?_updInsts iid y (fun j => setDoneInst j s.clock false)
      (fun j => rfl) s.insts
  have hpres : ∀ j : Inst,
      ((if j.iid = iid then setDoneInst j s.clock false else j)).iid = j.iid :=
    fun j => (doneG_fields iid s.clock false j).1
  refine ⟨⟨?_, ?_⟩, ?_, ?_, ?_, ?_, ?_, ?_, ?_, ?_, ?_, ?_, ?_⟩
  · show ((updInsts s.insts iid (fun j => setDoneInst j s.clock false)).map
      (fun i0 => i0.iid)).Nodup
    have hmapiid := map_iid_of_pres
      (fun j => if j.iid = iid then setDoneInst j s.clock false else j) hpres s.insts
    show ((s.insts.map (fun j => if j.iid = iid then setDoneInst j s.clock false
      else j)).map (fun i0 => i0.iid)).Nodup
    rw [hmapiid]
    exact hiid.1
  · intro i2 hi2
    obtain ⟨j, hj, hij⟩ := mem_updInsts hi2
    have he : i2.iid = j.iid := by
      rw [hij]
      exact hpres j
    rw [he]
    exact hiid.2 j hj
  · intro i2 hi2
    obtain ⟨j, hj, hij⟩ := mem_updInsts hi2
    obtain ⟨h1, h2, h3⟩ := htime j hj
    show i2.addedAt < s.clock + 1 ∧ (∀ ts, i2.startedAt = some ts → ts < s.clock + 1) ∧
      (∀ tc, i2.completedAt = some tc → tc < s.clock + 1)
    by_cases hx : j.iid = iid
    · rw [if_pos hx] at hij
      subst hij
      refine ⟨Nat.lt_succ_of_lt h1, fun ts hts => Nat.lt_succ_of_lt (h2 ts hts), ?_⟩
      intro tc htc
      have h5 : s.clock = tc := Option.some.inj htc
      rw [← h5]
      exact Nat.lt_succ_self _
    · rw [if_neg hx] at hij
      subst hij
      exact ⟨Nat.lt_succ_of_lt h1, fun ts hts => Nat.lt_succ_of_lt (h2 ts hts),
        fun tc htc => Nat.lt_succ_of_lt (h3 tc htc)⟩
  · show (s.inProg.filter (fun j => j ≠ iid)).Nodup
    exact List.Nodup.filter _ hndp
  · intro j hj
    rw [List.mem_filter] at hj
    obtain ⟨hjo, hjne0⟩ := hj
    have hjne : j ≠ iid := of_decide_eq_true hjne0
    obtain ⟨i0, hI0, ha, hb, hcc, hd⟩ := hinp j hjo
    have hi0iid : i0.iid = j := instById_iid hI0
    refine ⟨i0, ?_, ha, hb, hcc, hd⟩
    show (updInsts s.insts iid (fun j0 => setDoneInst j0 s.clock false)).find?
      (fun k => k.iid = j) = some i0
    rw [hById j, hI0, Option.map_some', if_neg (by rw [hi0iid]; exact hjne)]
  · intro i2 hi2
    obtain ⟨j, hj, hij⟩ := mem_updInsts hi2
    have he : i2.task = j.task := by
      rw [hij]
      exact (doneG_fields iid s.clock false j).2.1
    rw [he]
    exact htask j hj
  · intro a2 ha2 b2 hb2 tb hstart hdak hadd
    obtain ⟨a0, ha0, hija⟩ := mem_updInsts ha2
    obtain ⟨b0, hb0, hijb⟩ := mem_updInsts hb2
    obtain ⟨_, hbt, hba, hbst, hbds⟩ := doneG_fields iid s.clock false b0
    rw [← hijb] at hbst hbds
    obtain ⟨_, hat, haa, _, _⟩ := doneG_fields iid s.clock false a0
    rw [← hija] at hat haa
    rw [hbst] at hstart
    rw [hat, hbds] at hdak
    rw [haa] at hadd
    obtain ⟨hrm2, hca2⟩ := hdep a0 ha0 b0 hb0 tb hstart hdak hadd
    constructor
    · by_cases hax : a0.iid = iid
      · rw [if_pos hax] at hija
        rw [hija]
        rfl
      · rw [if_neg hax] at hija
        rw [hija]
        exact hrm2
    · intro ca hca
      by_cases hax : a0.iid = iid
      · exfalso
        have ha0i : a0 = i := inst_eq_of_iid_eq hiid.1 ha0 hiI (by rw [hax, hiiid])
        rw [ha0i] at hrm2
        rw [hirm] at hrm2
        cases hrm2
      · rw [if_neg hax] at hija
        rw [hija] at hca
        exact hca2 ca hca
  · show (s.inProg.filter (fun j => j ≠ iid)).length ≤ s.climit
    exact Nat.le_trans (List.length_filter_le _ _) hlen
  · intro ty k hk hall
    show (((s.inProg.filter (fun j0 => j0 ≠ iid)).filterMap
      (fun j => (updInsts s.insts iid (fun j0 => setDoneInst j0 s.clock false)).find?
        (fun k0 => k0.iid = j))).filter
      (fun i0 => i0.task.tType = ty ∧ sameTypeParent i0.task = false)).length ≤ k
    have hcongr : (s.inProg.filter (fun j0 => j0 ≠ iid)).filterMap
        (fun j => (updInsts s.insts iid (fun j0 => setDoneInst j0 s.clock false)).find?
          (fun k0 => k0.iid = j))
        = (s.inProg.filter (fun j0 => j0 ≠ iid)).filterMap (fun j => instById s j) := by
      refine List.filterMap_congr ?_
      intro j hj
      rw [List.mem_filter] at hj
      have hjne : j ≠ iid := of_decide_eq_true hj.2
      obtain ⟨i0, hI0, _, _, _, _⟩ := hinp j hj.1
      have hi0iid : i0.iid = j := instById_iid hI0
      rw [hById j, hI0, Option.map_some', if_neg (by rw [hi0iid]; exact hjne)]
    rw [hcongr]
    have hsub2 : ((s.inProg.filter (fun j0 => j0 ≠ iid)).filterMap
        (fun j => instById s j)).Sublist (inProgInsts s) :=
      List.Sublist.filterMap _ (List.filter_sublist s.inProg)
    have hsub3 := List.Sublist.filter
      (fun i0 : Inst => decide (i0.task.tType = ty ∧ sameTypeParent i0.task = false)) hsub2
    exact Nat.le_trans (List.Sublist.length_le hsub3) (hpt ty k hk hall)
  · intro i2 hi2 hfl
    obtain ⟨j, hj, hij⟩ := mem_updInsts hi2
    by_cases hx : j.iid = iid
    · rw [if_pos hx] at hij
      rw [hij]
      rfl
    · rw [if_neg hx] at hij
      subst hij
      exact hfr i2 hj hfl
  · intro i2 hi2 hcs
    obtain ⟨j, hj, hij⟩ := mem_updInsts hi2
    by_cases hx : j.iid = iid
    · rw [if_pos hx] at hij
      rw [hij]
      rfl
    · rw [if_neg hx] at hij
      subst hij
      exact hcr i2 hj hcs
  · intro i2 hi2
    obtain ⟨j, hj, hij⟩ := mem_updInsts hi2
    have hiidp : i2.iid = j.iid := by
      rw [hij]
      exact hpres j
    show errCount (s.events ++ [Ev.complete (resultOf i s.clock false)]) i2.iid
      = if i2.failed then 1 else 0
    rw [errCount_append, errCount_one_complete, Nat.add_zero, hiidp]
    by_cases hx : j.iid = iid
    · rw [if_pos hx] at hij
      have hji : j = i := inst_eq_of_iid_eq hiid.1 hj hiI (by rw [hx, hiiid])
      have hf2 : i2.failed = false := by
        rw [hij]
        rfl
      rw [hf2, hji]
      have h0 := herr1 i hiI
      rw [hifl] at h0
      exact h0
    · rw [if_neg hx] at hij
      have hf2 : i2.failed = j.failed := by
        rw [hij]
      rw [hf2]
      exact herr1 j hj
  · intro x hx
    show errCount (s.events ++ [Ev.complete (resultOf i s.clock false)]) x = 0
    rw [errCount_append, errCount_one_complete, Nat.add_zero]
    exact herr2 x hx

/-- Field behaviour of the cancellation map of a failing settlement. -/
theorem cancelG_fields (ds : List Nat) (j : Inst) :
    ((if j.iid ∈ ds then setCancelledInst j else j).iid = j.iid) ∧
    ((if j.iid ∈ ds then setCancelledInst j else j).task = j.task) ∧
    ((if j.iid ∈ ds then setCancelledInst j else j).addedAt = j.addedAt) ∧
    ((if j.iid ∈ ds then setCancelledInst j else j).startedAt = j.startedAt) ∧
    ((if j.iid ∈ ds then setCancelledInst j else j).depsAtStart = j.depsAtStart) ∧
    ((if j.iid ∈ ds then setCancelledInst j else j).completedAt = j.completedAt) ∧
    ((if j.iid ∈ ds then setCancelledInst j else j).failed = j.failed) := by
  by_cases hx : j.iid ∈ ds <;> simp [hx, setCancelledInst]

/-- Field behaviour of the composite per-instance update of a failing
settlement (cancellation followed by the terminal stamp). -/
theorem failG_fields (ds : List Nat) (iid now : Nat) (j : Inst) :
    ((if ((if j.iid ∈ ds then setCancelledInst j else j)).iid = iid
      then setDoneInst ((if j.iid ∈ ds then setCancelledInst j else j)) now true
      else ((if j.iid ∈ ds then setCancelledInst j else j))).iid = j.iid) ∧
    ((if ((if j.iid ∈ ds then setCancelledInst j else j)).iid = iid
      then setDoneInst ((if j.iid ∈ ds then setCancelledInst j else j)) now true
      else ((if j.iid ∈ ds then setCancelledInst j else j))).task = j.task) ∧
    ((if ((if j.iid ∈ ds then setCancelledInst j else j)).iid = iid
      then setDoneInst ((if j.iid ∈ ds then setCancelledInst j else j)) now true
      else ((if j.iid ∈ ds then setCancelledInst j else j))).addedAt = j.addedAt) ∧
    ((if ((if j.iid ∈ ds then setCancelledInst j else j)).iid = iid
      then setDoneInst ((if j.iid ∈ ds then setCancelledInst j else j)) now true
      else ((if j.iid ∈ ds then setCancelledInst j else j))).startedAt = j.startedAt) ∧
    ((if ((if j.iid ∈ ds then setCancelledInst j else j)).iid = iid
      then setDoneInst ((if j.iid ∈ ds then setCancelledInst j else j)) now true
      else ((if j.iid ∈ ds then setCancelledInst j else j))).depsAtStart
      = j.depsAtStart) := by
  by_cases h1 : j.iid ∈ ds
  · rw [if_pos h1]
    by_cases h2 : j.iid = iid
    · have h2a : (setCancelledInst j).iid = iid := h2
      rw [if_pos h2a]
      simp [setCancelledInst, setDoneInst]
    · have h2a : ¬((setCancelledInst j).iid = iid) := h2
      rw [if_neg h2a]
      simp [setCancelledInst]
  · rw [if_neg h1]
    by_cases h2 : j.iid = iid
    · rw [if_pos h2]
      simp [setDoneInst]
    · rw [if_neg h2]
      simp

/-- A failing settlement preserves the reachability invariant, for an
arbitrary cancellation identity set ds. -/
theorem inv_step_fail_gen (E : List GTask) (s : Sched) (iid : Nat) (i : Inst)
    (ds : List Nat) (hI : instById s iid = some i) (hp : iid ∈ s.inProg)
    (inv : globalInv E s) :
    globalInv E { s with
      insts := updInsts (s.insts.map
          (fun j => if j.iid ∈ ds then setCancelledInst j else j))
        iid (fun j => setDoneInst j s.clock true),
      inProg := (s.inProg.filter (fun j => !(ds.contains j))).filter (fun j => j ≠ iid),
      cache := cachePut (resultOf i s.clock true) s.cache,
      events := s.events ++ [Ev.error (resultOf i s.clock true)],
      clock := s.clock + 1 } := by
  obtain ⟨hiid, htime, hndp, hinp, htask, hdep, hlen, hpt, hfr, hcr, herr1, herr2⟩ := inv
  obtain ⟨i1, hI1, hirm, hist, hicp, hifl⟩ := hinp iid hp
  have hI1i : i1 = i := by
    rw [hI1] at hI
    exact Option.some.inj hI
  subst hI1i
  have hiI : i1 ∈ s.insts := instById_mem hI
  have hiiid : i1.iid = iid := instById_iid hI
  have hmemF : ∀ {i2 : Inst}, i2 ∈ updInsts (s.insts.map
      (fun j => if j.iid ∈ ds then setCancelledInst j else j)) iid
      (fun j => setDoneInst j s.clock true) →
      ∃ j ∈ s.insts, i2 = if ((if j.iid ∈ ds then setCancelledInst j else j)).iid = iid
        then setDoneInst ((if j.iid ∈ ds then setCancelledInst j else j)) s.clock true
        else ((if j.iid ∈ ds then setCancelledInst j else j)) := by
    intro i2 h
    obtain ⟨j2, hj2, hij⟩ := mem_updInsts h
    obtain ⟨j, hj, hjc⟩ := List.mem_map.mp hj2
    refine ⟨j, hj, ?_⟩
    rw [hij, ← hjc]
  have hByIdF : ∀ (y : Nat),
      (updInsts (s.insts.map (fun j => if j.iid ∈ ds then setCancelledInst j else j)) iid
        (fun j => setDoneInst j s.clock true)).find? (fun k => k.iid = y)
      = ((s.insts.find? (fun k => k.iid = y)).map
          (fun j => if j.iid ∈ ds then setCancelledInst j else j)).map
          (fun j => if j.iid = iid then setDoneInst j s.clock true else j) := by
    intro y
    rw [find?_updInsts iid y (fun j => setDoneInst j s.clock true) (fun j => rfl)
      (s.insts.map (fun j => if j.iid ∈ ds then setCancelledInst j else j))]
    rw [find?_map_iidpres (fun j => if j.iid ∈ ds then setCancelledInst j else j)
      (fun j => (cancelG_fields ds j).1) y s.insts]
  refine ⟨⟨?_, ?_⟩, ?_, ?_, ?_, ?_, ?_, ?_, ?_, ?_, ?_, ?_, ?_⟩
  · show (((s.insts.map (fun j => if j.iid ∈ ds then setCancelledInst j else j)).map
      (fun j => if j.iid = iid then setDoneInst j s.clock true else j)).map
        (fun i0 => i0.iid)).Nodup
    rw [map_iid_of_pres (fun j => if j.iid = iid then setDoneInst j s.clock true else j)
      (fun j => (doneG_fields iid s.clock true j).1)
      (s.insts.map (fun j => if j.iid ∈ ds then setCancelledInst j else j))]
    rw [map_iid_of_pres (fun j => if j.iid ∈ ds then setCancelledInst j else j)
      (fun j => (cancelG_fields ds j).1) s.insts]
    exact hiid.1
  · intro i2 hi2
    obtain ⟨j, hj, hij⟩ := hmemF hi2
    have he : i2.iid = j.iid := by
      rw [hij]
      exact (failG_fields ds iid s.clock j).1
    rw [he]
    exact hiid.2 j hj
  · intro i2 hi2
    obtain ⟨j, hj, hij⟩ := hmemF hi2
    obtain ⟨h1, h2, h3⟩ := htime j hj
    obtain ⟨hc1, hc2, hc3, hc4, hc5, hc6, hc7⟩ := cancelG_fields ds j
    rw [hc1] at hij
    show i2.addedAt < s.clock + 1 ∧ (∀ ts, i2.startedAt = some ts → ts < s.clock + 1) ∧
      (∀ tc, i2.completedAt = some tc → tc < s.clock + 1)
    by_cases hx : j.iid = iid
    · rw [if_pos hx] at hij
      subst hij
      refine ⟨?_, ?_, ?_⟩
      · have h6 : (setDoneInst (if j.iid ∈ ds then setCancelledInst j else j)
            s.clock true).addedAt = j.addedAt := hc3
        rw [h6]
        exact Nat.lt_succ_of_lt h1
      · intro ts hts
        have hts2 : j.startedAt = some ts := by
          rw [← hc4]
          exact hts
        exact Nat.lt_succ_of_lt (h2 ts hts2)
      · intro tc htc
        have h5 : s.clock = tc := Option.some.inj htc
        rw [← h5]
        exact Nat.lt_succ_self _
    · rw [if_neg hx] at hij
      subst hij
      refine ⟨?_, ?_, ?_⟩
      · rw [hc3]
        exact Nat.lt_succ_of_lt h1
      · intro ts hts
        rw [hc4] at hts
        exact Nat.lt_succ_of_lt (h2 ts hts)
      · intro tc htc
        rw [hc6] at htc
        exact Nat.lt_succ_of_lt (h3 tc htc)
  · show ((s.inProg.filter (fun j => !(ds.contains j))).filter (fun j => j ≠ iid)).Nodup
    exact List.Nodup.filter _ (List.Nodup.filter _ hndp)
  · intro j hj
    rw [List.mem_filter] at hj
    obtain ⟨hj1, hjne0⟩ := hj
    rw [List.mem_filter] at hj1
    obtain ⟨hjo, hjds0⟩ := hj1
    have hjne : j ≠ iid := of_decide_eq_true hjne0
    have hjds : j ∉ ds := by simpa using hjds0
    obtain ⟨i0, hI0, ha, hb, hcc, hd⟩ := hinp j hjo
    have hi0iid : i0.iid = j := instById_iid hI0
    refine ⟨i0, ?_, ha, hb, hcc, hd⟩
    show (updInsts (s.insts.map (fun j0 => if j0.iid ∈ ds then setCancelledInst j0 else j0))
      iid (fun j0 => setDoneInst j0 s.clock true)).find? (fun k => k.iid = j) = some i0
    have hI0f : s.insts.find? (fun k => k.iid = j) = some i0 := hI0
    have hcds : ¬(i0.iid ∈ ds) := by
      rw [hi0iid]
      exact hjds
    have hgne : ¬(i0.iid = iid) := by
      rw [hi0iid]
      exact hjne
    rw [hByIdF j, hI0f, Option.map_some', Option.map_some']
    rw [if_neg hcds]
    rw [if_neg hgne]
  · intro i2 hi2
    obtain ⟨j, hj, hij⟩ := hmemF hi2
    have he : i2.task = j.task := by
      rw [hij]
      exact (failG_fields ds iid s.clock j).2.1
    rw [he]
    exact htask j hj
  · intro a2 ha2 b2 hb2 tb hstart hdak hadd
    obtain ⟨a0, ha0, hija⟩ := hmemF ha2
    obtain ⟨b0, hb0, hijb⟩ := hmemF hb2
    obtain ⟨_, hbt, hba, hbst, hbds⟩ := failG_fields ds iid s.clock b0
    rw [← hijb] at hbst hbds
    obtain ⟨_, hat, haa, _, _⟩ := failG_fields ds iid s.clock a0
    rw [← hija] at hat haa
    rw [hbst] at hstart
    rw [hat, hbds] at hdak
    rw [haa] at hadd
    obtain ⟨hrm2, hca2⟩ := hdep a0 ha0 b0 hb0 tb hstart hdak hadd
    constructor
    · obtain ⟨hc1, _, _, _, _, _, _⟩ := cancelG_fields ds a0
      rw [hc1] at hija
      by_cases hax : a0.iid = iid
      · rw [if_pos hax] at hija
        rw [hija]
        rfl
      · rw [if_neg hax] at hija
        rw [hija]
        by_cases hads : a0.iid ∈ ds
        · rw [if_pos hads]
          rfl
        · rw [if_neg hads]
          exact hrm2
    · intro ca hca
      obtain ⟨hc1, _, _, _, _, hc6, _⟩ := cancelG_fields ds a0
      rw [hc1] at hija
      by_cases hax : a0.iid = iid
      · exfalso
        have ha0i : a0 = i1 := inst_eq_of_iid_eq hiid.1 ha0 hiI (by rw [hax, hiiid])
        rw [ha0i, hirm] at hrm2
        cases hrm2
      · rw [if_neg hax] at hija
        rw [hija] at hca
        have hca0 : a0.completedAt = some ca := by
          rw [← hc6]
          exact hca
        exact hca2 ca hca0
  · show ((s.inProg.filter (fun j => !(ds.contains j))).filter
      (fun j => j ≠ iid)).length ≤ s.climit
    exact Nat.le_trans (List.length_filter_le _ _)
      (Nat.le_trans (List.length_filter_le _ _) hlen)
  · intro ty k hk hall
    show (((((s.inProg.filter (fun j0 => !(ds.contains j0))).filter
      (fun j0 => j0 ≠ iid))).filterMap
      (fun j => (updInsts (s.insts.map
          (fun j0 => if j0.iid ∈ ds then setCancelledInst j0 else j0)) iid
        (fun j0 => setDoneInst j0 s.clock true)).find? (fun k0 => k0.iid = j))).filter
      (fun i0 => i0.task.tType = ty ∧ sameTypeParent i0.task = false)).length ≤ k
    have hcongr : (((s.inProg.filter (fun j0 => !(ds.contains j0))).filter
        (fun j0 => j0 ≠ iid))).filterMap
        (fun j => (updInsts (s.insts.map
            (fun j0 => if j0.iid ∈ ds then setCancelledInst j0 else j0)) iid
          (fun j0 => setDoneInst j0 s.clock true)).find? (fun k0 => k0.iid = j))
        = (((s.inProg.filter (fun j0 => !(ds.contains j0))).filter
          (fun j0 => j0 ≠ iid))).filterMap (fun j => instById s j) := by
      refine List.filterMap_congr ?_
      intro j hj
      rw [List.mem_filter] at hj
      obtain ⟨hj1, hjne0⟩ := hj
      rw [List.mem_filter] at hj1
      obtain ⟨hjo, hjds0⟩ := hj1
      have hjne : j ≠ iid := of_decide_eq_true hjne0
      have hjds : j ∉ ds := by simpa using hjds0
      obtain ⟨i0, hI0, _, _, _, _⟩ := hinp j hjo
      have hi0iid : i0.iid = j := instById_iid hI0
      have hI0f : s.insts.find? (fun k => k.iid = j) = some i0 := hI0
      have hcds : ¬(i0.iid ∈ ds) := by
        rw [hi0iid]
        exact hjds
      have hgne : ¬(i0.iid = iid) := by
        rw [hi0iid]
        exact hjne
      rw [hByIdF j, hI0f, Option.map_some', Option.map_some']
      rw [if_neg hcds]
      rw [if_neg hgne]
      exact hI0.symm
    rw [hcongr]
    have hsub2 : ((((s.inProg.filter (fun j0 => !(ds.contains j0))).filter
        (fun j0 => j0 ≠ iid))).filterMap (fun j => instById s j)).Sublist
        (inProgInsts s) :=
      List.Sublist.filterMap _
        (List.Sublist.trans (List.filter_sublist _) (List.filter_sublist _))
    have hsub3 := List.Sublist.filter
      (fun i0 : Inst => decide (i0.task.tType = ty ∧ sameTypeParent i0.task = false)) hsub2
    exact Nat.le_trans (List.Sublist.length_le hsub3) (hpt ty k hk hall)
  · intro i2 hi2 hfl
    obtain ⟨j, hj, hij⟩ := hmemF hi2
    obtain ⟨hc1, _, _, _, _, _, _⟩ := cancelG_fields ds j
    rw [hc1] at hij
    by_cases hx : j.iid = iid
    · rw [if_pos hx] at hij
      rw [hij]
      rfl
    · rw [if_neg hx] at hij
      by_cases hds2 : j.iid ∈ ds
      · rw [if_pos hds2] at hij
        rw [hij]
        rfl
      · rw [if_neg hds2] at hij
        subst hij
        exact hfr i2 hj hfl
  · intro i2 hi2 hcs
    obtain ⟨j, hj, hij⟩ := hmemF hi2
    obtain ⟨hc1, _, _, _, _, _, _⟩ := cancelG_fields ds j
    rw [hc1] at hij
    by_cases hx : j.iid = iid
    · rw [if_pos hx] at hij
      rw [hij]
      rfl
    · rw [if_neg hx] at hij
      by_cases hds2 : j.iid ∈ ds
      · rw [if_pos hds2] at hij
        rw [hij]
        rfl
      · rw [if_neg hds2] at hij
        subst hij
        exact hcr i2 hj hcs
  · intro i2 hi2
    obtain ⟨j, hj, hij⟩ := hmemF hi2
    have hiidp : i2.iid = j.iid := by
      rw [hij]
      exact (failG_fields ds iid s.clock j).1
    show errCount (s.events ++ [Ev.error (resultOf i1 s.clock true)]) i2.iid
      = if i2.failed then 1 else 0
    rw [errCount_append, errCount_one_error, hiidp]
    obtain ⟨hc1, _, _, _, _, _, hc7⟩ := cancelG_fields ds j
    rw [hc1] at hij
    have hr : (resultOf i1 s.clock true).iid = i1.iid := rfl
    by_cases hx : j.iid = iid
    · rw [if_pos hx] at hij
      have hji : j = i1 := inst_eq_of_iid_eq hiid.1 hj hiI (by rw [hx, hiiid])
      have hf2 : i2.failed = true := by
        rw [hij]
        rfl
      have h0 : errCount s.events i1.iid = 0 := by
        have h0a := herr1 i1 hiI
        rw [hifl] at h0a
        simpa using h0a
      rw [hf2, hji, hr]
      simp [h0]
    · have hf2 : i2.failed = j.failed := by
        rw [if_neg hx] at hij
        by_cases hds2 : j.iid ∈ ds
        · rw [if_pos hds2] at hij
          rw [hij]
          rfl
        · rw [if_neg hds2] at hij
          rw [hij]
      have hne : ¬((resultOf i1 s.clock true).iid = j.iid) := by
        rw [hr, hiiid]
        intro he
        exact hx he.symm
      rw [if_neg hne, Nat.add_zero, hf2]
      exact herr1 j hj
  · intro x hx
    have hx2 : s.nextId ≤ x := hx
    show errCount (s.events ++ [Ev.error (resultOf i1 s.clock true)]) x = 0
    rw [errCount_append, errCount_one_error]
    have hne : ¬((resultOf i1 s.clock true).iid = x) := by
      have hr : (resultOf i1 s.clock true).iid = i1.iid := rfl
      rw [hr, hiiid]
      have hlt : iid < s.nextId := by
        rw [← hiiid]
        exact hiid.2 i1 hiI
      omega
    rw [if_neg hne, Nat.add_zero]
    exact herr2 x hx2

/-- A failing settlement preserves the reachability invariant. -/
theorem inv_step_fail (E : List GTask) (s : Sched) (iid : Nat)
    (hp : iid ∈ s.inProg) (inv : globalInv E s) : globalInv E (stepFail s iid) := by
  obtain ⟨i, hI, _, _, _, _⟩ := inv.2.2.2.1 iid hp
  have heq : stepFail s iid = { s with
      insts := updInsts (s.insts.map
          (fun j => if j.iid ∈ (dependantIids s (s.live.length + 1) i.task.baseKey)
            then setCancelledInst j else j))
        iid (fun j => setDoneInst j s.clock true),
      inProg := (s.inProg.filter
          (fun j => !((dependantIids s (s.live.length + 1) i.task.baseKey).contains j))).filter
        (fun j => j ≠ iid),
      cache := cachePut (resultOf i s.clock true) s.cache,
      events := s.events ++ [Ev.error (resultOf i s.clock true)],
      clock := s.clock + 1 } := by
    unfold stepFail
    rw [hI]
  rw [heq]
  exact inv_step_fail_gen E s iid i _ hI hp inv

/-- Every reachable scheduler state satisfies the combined invariant. -/
theorem reachInv (E : List GTask) (climit : Nat) (s : Sched) (h : Reach E climit s) :
    globalInv E s := by
  induction h with
  | init => exact inv_init E climit
  | next s1 s2 hr hstep ih =>
    cases hstep with
    | add t fuel ht => exact inv_step_add E s1 t fuel ht ih
    | start iid i hi hc => exact inv_step_start E s1 iid i hi hc ih
    | done iid hp => exact inv_step_done E s1 iid hp ih
    | fail iid hp => exact inv_step_fail E s1 iid hp ih
    | looper => exact inv_step_looper E s1 ih

theorem dependantOf_pos (s : Sched) (bk : String) (n : Inst) (k : Nat)
    (h : DependantOf s bk n k) : 1 ≤ k := by
  induction h with
  | direct bk n hn hdep => exact Nat.le_refl 1
  | step bk d n k hdd hrec ih1 ih2 => omega

theorem dependantOf_mem (s : Sched) (bk : String) (n : Inst) (k : Nat)
    (h : DependantOf s bk n k) : n ∈ s.live := by
  induction h with
  | direct bk n hn hdep => exact hn
  | step bk d n k hdd hrec ih1 ih2 => exact ih2

theorem dependantOf_one (s : Sched) (bk : String) (d : Inst)
    (h : DependantOf s bk d 1) :
    d ∈ s.live ∧ bk ∈ lookupDeps s.depCache d.task.key := by
  cases h
  case direct hn hdep => exact ⟨hn, hdep⟩
  case step hdd hrec =>
    rename_i d0
    have h1 := dependantOf_pos s d0.task.baseKey d 0 hrec
    omega

/-- A transitive dependant reached by a chain of length k is collected by
the getDependants recursion whenever the starting base key is carried by a
live node and the fuel covers the chain length. -/
theorem dependantIids_complete (s : Sched) :
    ∀ (k : Nat) (bk : String) (n : Inst), DependantOf s bk n k →
    ∀ fuel, k ≤ fuel →
    (∃ m ∈ s.live, m.task.baseKey = bk) →
    n.iid ∈ dependantIids s fuel bk := by
  intro k bk n hd
  induction hd with
  | direct bk n hn hdep =>
    intro fuel hf hex
    cases fuel with
    | zero => exact absurd hf (by decide)
    | succ f =>
      obtain ⟨m, hm, hbk⟩ := hex
      have hgneP : ¬((s.live.filter (fun m0 => m0.task.baseKey = bk)).isEmpty = true) := by
        intro hemp
        rw [List.isEmpty_iff] at hemp
        have hmm : m ∈ s.live.filter (fun m0 => m0.task.baseKey = bk) :=
          List.mem_filter.mpr ⟨hm, decide_eq_true hbk⟩
        rw [hemp] at hmm
        exact List.not_mem_nil m hmm
      show n.iid ∈ (if (s.live.filter (fun m0 => m0.task.baseKey = bk)).isEmpty = true
        then ([] : List Nat)
        else (s.live.filter (fun n0 => bk ∈ lookupDeps s.depCache n0.task.key)).map
            (fun n0 => n0.iid) ++
          ((s.live.filter (fun n0 => bk ∈ lookupDeps s.depCache n0.task.key)).map
            (fun n0 => dependantIids s f n0.task.baseKey)).flatten)
      rw [if_neg hgneP]
      refine List.mem_append.mpr (Or.inl ?_)
      exact List.mem_map.mpr ⟨n, List.mem_filter.mpr ⟨hn, decide_eq_true hdep⟩, rfl⟩
  | step bk d n k hdd hrec ih1 ih2 =>
    intro fuel hf hex
    cases fuel with
    | zero => exact absurd hf (by omega)
    | succ f =>
      obtain ⟨m, hm, hbk⟩ := hex
      obtain ⟨hdl, hdd2⟩ := dependantOf_one s bk d hdd
      have hgneP : ¬((s.live.filter (fun m0 => m0.task.baseKey = bk)).isEmpty = true) := by
        intro hemp
        rw [List.isEmpty_iff] at hemp
        have hmm : m ∈ s.live.filter (fun m0 => m0.task.baseKey = bk) :=
          List.mem_filter.mpr ⟨hm, decide_eq_true hbk⟩
        rw [hemp] at hmm
        exact List.not_mem_nil m hmm
      show n.iid ∈ (if (s.live.filter (fun m0 => m0.task.baseKey = bk)).isEmpty = true
        then ([] : List Nat)
        else (s.live.filter (fun n0 => bk ∈ lookupDeps s.depCache n0.task.key)).map
            (fun n0 => n0.iid) ++
          ((s.live.filter (fun n0 => bk ∈ lookupDeps s.depCache n0.task.key)).map
            (fun n0 => dependantIids s f n0.task.baseKey)).flatten)
      rw [if_neg hgneP]
      refine List.mem_append.mpr (Or.inr ?_)
      rw [List.mem_flatten]
      refine ⟨dependantIids s f d.task.baseKey, ?_, ?_⟩
      · exact List.mem_map.mpr
          ⟨d, List.mem_filter.mpr ⟨hdl, decide_eq_true hdd2⟩, rfl⟩
      · exact ih2 f (by omega) ⟨d, hdl, rfl⟩

/-- The failing settlement of a tracked node, written out over the node
identity it settles. -/
theorem stepFail_eq (s : Sched) (iid : Nat) (i : Inst)
    (hI : instById s iid = some i) :
    stepFail s iid = { s with
      insts := updInsts (s.insts.map
          (fun j => if j.iid ∈ (dependantIids s (s.live.length + 1) i.task.baseKey)
            then setCancelledInst j else j))
        iid (fun j => setDoneInst j s.clock true),
      inProg := (s.inProg.filter
          (fun j => !((dependantIids s (s.live.length + 1) i.task.baseKey).contains j))).filter
        (fun j => j ≠ iid),
      cache := cachePut (resultOf i s.clock true) s.cache,
      events := s.events ++ [Ev.error (resultOf i s.clock true)],
      clock := s.clock + 1 } := by
  unfold stepFail
  rw [hI]

/-- The one-task execution trace is an execution of the model. -/
theorem reach_trOne5 : Reach envOne 100 trOne5 := by
  have r0 : Reach envOne 100 (initSched 100) := Reach.init
  have r1 : Reach envOne 100 trOne1 := Reach.next _ _ r0 (Step.add _ taskA 2 (by decide))
  have r2 : Reach envOne 100 trOne2 := Reach.next _ _ r1 (Step.looper _)
  have r3 : Reach envOne 100 trOne3 := Reach.next _ _ r2
    (Step.start _ 0 (Inst.mk 0 taskA 0 none [] none false false false)
      (by decide) (by decide))
  have r4 : Reach envOne 100 trOne4 := Reach.next _ _ r3 (Step.done _ 0 (by decide))
  exact Reach.next _ _ r4 (Step.looper _)

/-- The re-added dependency trace up to the start of the forced task is an
execution of the model. -/
theorem reach_trTwo6 : Reach envTwo 100 trTwo6 := by
  have r0 : Reach envTwo 100 (initSched 100) := Reach.init
  have r1 : Reach envTwo 100 trTwo1 := Reach.next _ _ r0 (Step.add _ tB 3 (by decide))
  have r2 : Reach envTwo 100 trTwo2 := Reach.next _ _ r1
    (Step.start _ 1 (Inst.mk 1 tA 0 none [] none false false false)
      (by decide) (by decide))
  have r3 : Reach envTwo 100 trTwo3 := Reach.next _ _ r2 (Step.done _ 1 (by decide))
  have r4 : Reach envTwo 100 trTwo4 := Reach.next _ _ r3
    (Step.start _ 0 (Inst.mk 0 tB 0 none [] none false false false)
      (by decide) (by decide))
  have r5 : Reach envTwo 100 trTwo5 := Reach.next _ _ r4 (Step.add _ tAf 2 (by decide))
  exact Reach.next _ _ r5
    (Step.start _ 2 (Inst.mk 2 tAf 4 none [] none false false false)
      (by decide) (by decide))

/-- The full re-added dependency trace, through the failing settlement of
the forced task, is an execution of the model. -/
theorem reach_trTwo7 : Reach envTwo 100 trTwo7 :=
  Reach.next _ _ reach_trTwo6 (Step.fail _ 2 (by decide))

/-- The limit-one execution trace is an execution of the model. -/
theorem reach_trLim2 : Reach envLim 4 trLim2 := by
  have r0 : Reach envLim 4 (initSched 4) := Reach.init
  have r1 : Reach envLim 4 trLim1 := Reach.next _ _ r0 (Step.add _ taskL 2 (by decide))
  exact Reach.next _ _ r1
    (Step.start _ 0 (Inst.mk 0 taskL 0 none [] none false false false)
      (by decide) (by decide))

/-- C1, counterexample: the dependency-order sentence fails as stated.  In
the reachable state trTwo7 the re-added dependency instance of test.a
completed at time 6 while its dependant test.b — joined to it by the
current task dependency cache — started at time 3: a dependency can be
re-added and complete after its dependant started, because the loop only
requires an empty rebuilt dependency list at the moment a node starts. -/
theorem c1_dependency_order_counterexample : ¬ c1Claim := by
  intro h
  have h2 := h envTwo 100 trTwo7 reach_trTwo7 instA27 (by decide) instB7 (by decide)
    3 6 (by decide) (by decide) (by decide)
  exact absurd h2 (by decide)

/-- C1 (amended): dependency order holds against the dependant's start-time
dependency snapshot — for every reachable state and every pair of scheduled
instances a, b such that a's base key belongs to the dependency set b
carried when it started and a was added no later than b started, if a
completed at ca and b started at tb then ca ≤ tb. -/
theorem c1_dependency_order (E : List GTask) (climit : Nat) (s : Sched)
    (hr : Reach E climit s) (a : Inst) (ha : a ∈ s.insts) (b : Inst) (hb : b ∈ s.insts)
    (tb ca : Nat) (hstart : b.startedAt = some tb) (hcomp : a.completedAt = some ca)
    (hdepk : a.task.baseKey ∈ b.depsAtStart) (hadd : a.addedAt ≤ tb) : ca ≤ tb := by
  have inv := reachInv E climit s hr
  have hdep := inv.2.2.2.2.2.1
  obtain ⟨_, hlt⟩ := hdep a ha b hb tb hstart hdepk hadd
  exact Nat.le_of_lt (hlt ca hcomp)

/-- Witness for C1 (amended): in the reachable state trTwo7 the first
instance of test.a completed at 2 and its dependant test.b started at 3. -/
theorem c1_dependency_order_witness :
    instA17 ∈ trTwo7.insts ∧ instB7 ∈ trTwo7.insts ∧ (2 : Nat) ≤ 3 :=
  ⟨by decide, by decide,
    c1_dependency_order envTwo 100 trTwo7 reach_trTwo7 instA17 (by decide)
      instB7 (by decide) 3 2 (by decide) (by decide) (by decide) (by decide)⟩

/-- C3, counterexample: the cancellation sentence fails as stated — a
transitive dependant of an in-progress task may already have been started.
In the reachable state trTwo6 the forced re-add of test.a is in progress
while its dependant test.b, joined to it through the dependency cache,
already carries startedAt = 3. -/
theorem c3_cancellation_counterexample : ¬ c3Claim := by
  intro h
  have hd : DependantOf trTwo6 instA6.task.baseKey instB6 1 :=
    DependantOf.direct _ instB6 (by decide) (by decide)
  have h2 := h envTwo 100 trTwo6 reach_trTwo6 2 instA6 (by decide) (by decide)
    instB6 1 hd
  exact absurd h2 (by decide)

/-- C3 (amended): when an in-progress task settles failing, every
transitive dependant of its base key over the current dependency views
(reached by a chain no longer than the live index) is removed from the
graph as cancelled, and the failing task is reported by exactly one
taskError event carrying its identity. -/
theorem c3_cancellation (E : List GTask) (climit : Nat) (s : Sched)
    (hr : Reach E climit s) (iid : Nat) (i : Inst) (hI : instById s iid = some i)
    (hp : iid ∈ s.inProg) :
    (∀ n k, DependantOf s i.task.baseKey n k → k ≤ s.live.length →
      ∃ m, instById (stepFail s iid) n.iid = some m ∧ m.removed = true ∧
        m.cancelled = true) ∧
    errCount (stepFail s iid).events i.iid = 1 := by
  obtain ⟨hiid, htime, hndp, hinp, htask, hdep, hlen, hpt, hfr, hcr, herr1, herr2⟩ :=
    reachInv E climit s hr
  obtain ⟨i1, hI1, hirm, hist, hicp, hifl⟩ := hinp iid hp
  have hI1i : i1 = i := by
    rw [hI1] at hI
    exact Option.some.inj hI
  subst hI1i
  have hiI : i1 ∈ s.insts := instById_mem hI
  have hiiid : i1.iid = iid := instById_iid hI
  have hiLive : i1 ∈ s.live := List.mem_filter.mpr ⟨hiI, by simp [hirm]⟩
  rw [stepFail_eq s iid i1 hI]
  constructor
  · intro n k hd hk
    have hnds : n.iid ∈ dependantIids s (s.live.length + 1) i1.task.baseKey :=
      dependantIids_complete s k i1.task.baseKey n hd (s.live.length + 1) (by omega)
        ⟨i1, hiLive, rfl⟩
    have hnLive : n ∈ s.live := dependantOf_mem s _ n k hd
    have hnI : n ∈ s.insts := List.mem_of_mem_filter hnLive
    have hfind : s.insts.find? (fun k0 => k0.iid = n.iid) = some n :=
      find?_eq_of_nodup s.insts hiid.1 n hnI
    show ∃ m, (updInsts (s.insts.map
        (fun j => if j.iid ∈ dependantIids s (s.live.length + 1) i1.task.baseKey
          then setCancelledInst j else j)) iid
        (fun j => setDoneInst j s.clock true)).find? (fun k0 => k0.iid = n.iid)
      = some m ∧ m.removed = true ∧ m.cancelled = true
    rw [find?_updInsts iid n.iid (fun j => setDoneInst j s.clock true) (fun j => rfl)
      (s.insts.map (fun j => if j.iid ∈ dependantIids s (s.live.length + 1) i1.task.baseKey
        then setCancelledInst j else j))]
    rw [find?_map_iidpres
      (fun j => if j.iid ∈ dependantIids s (s.live.length + 1) i1.task.baseKey
        then setCancelledInst j else j)
      (fun j => (cancelG_fields _ j).1) n.iid s.insts]
    rw [hfind, Option.map_some', Option.map_some']
    rw [if_pos hnds]
    by_cases hni : n.iid = iid
    · have h2 : (setCancelledInst n).iid = iid := hni
      rw [if_pos h2]
      exact ⟨_, rfl, rfl, rfl⟩
    · have h2 : ¬((setCancelledInst n).iid = iid) := hni
      rw [if_neg h2]
      exact ⟨_, rfl, rfl, rfl⟩
  · show errCount (s.events ++ [Ev.error (resultOf i1 s.clock true)]) i1.iid = 1
    rw [errCount_append, errCount_one_error]
    have h0 : errCount s.events i1.iid = 0 := by
      have h0a := herr1 i1 hiI
      rw [hifl] at h0a
      simpa using h0a
    have hr2 : (resultOf i1 s.clock true).iid = i1.iid := rfl
    rw [hr2, if_pos rfl, h0]

/-- Witness for C3 (amended): failing the in-progress forced test.a of
trTwo6 cancels and removes its started dependant test.b and reports exactly
one taskError for the failing identity. -/
theorem c3_cancellation_witness :
    (∃ m, instById (stepFail trTwo6 2) instB6.iid = some m ∧ m.removed = true ∧
      m.cancelled = true) ∧ errCount (stepFail trTwo6 2).events instA6.iid = 1 := by
  have h := c3_cancellation envTwo 100 trTwo6 reach_trTwo6 2 instA6 (by decide) (by decide)
  exact ⟨h.1 instB6 1 (DependantOf.direct _ instB6 (by decide) (by decide)) (by decide),
    h.2⟩

/-- C4: the per-key taskProcessing emission is absent from the source.  In
the single-task execution the model emits taskPending, taskGraphProcessing,
taskComplete and taskGraphComplete and no per-key taskProcessing event at
all, so no taskPending-before-taskProcessing ordering can be established:
processTask starts the node without emitting a per-key event. -/
theorem c4_no_task_processing_event :
    Reach envOne 100 trOne5 ∧
    trOne5.events = [Ev.pending "test.a.h" 0, Ev.graphProcessing 1,
      Ev.complete (TaskResultM.mk "test" "test.a" "test.a.h" 0 false 2 3),
      Ev.graphComplete 4] ∧
    ∀ e ∈ trOne5.events, isProcessingEv e = false :=
  ⟨reach_trOne5, by decide, by decide⟩

/-- C5: at every reachable state the number of in-progress nodes is bounded
by the constructor concurrency limit, and for every task type whose tasks
all carry the same positive concurrencyLimit k, the in-progress nodes of
that type not enqueued by a same-type parent number at most k. -/
theorem c5_concurrency (E : List GTask) (climit : Nat) (s : Sched)
    (hr : Reach E climit s) :
    s.inProg.length ≤ s.climit ∧
    ∀ ty k, 1 ≤ k → (∀ t ∈ E, t.tType = ty → t.limit = k) →
      nonExemptCount s ty ≤ k := by
  have inv := reachInv E climit s hr
  exact ⟨inv.2.2.2.2.2.2.1, inv.2.2.2.2.2.2.2.1⟩

/-- Witness for C5: in the limit-one build execution one build task is in
progress, within both the global limit 4 and the per-type limit 1. -/
theorem c5_concurrency_witness :
    trLim2.inProg.length ≤ trLim2.climit ∧ nonExemptCount trLim2 "build" ≤ 1 := by
  have h := c5_concurrency envLim 4 trLim2 reach_trLim2
  exact ⟨h.1, h.2 "build" 1 (by decide) (by decide)⟩

/-- ResultCache.get never returns an entry whose error flag is set. -/
theorem cacheGet_no_error (c : ResultCache) (k : String) (r : TaskResultM)
    (h : cacheGet c k = some r) : r.hasError = false := by
  unfold cacheGet at h
  cases hf : c.entries.find? (fun r0 => r0.key = k) with
  | none =>
    rw [hf] at h
    cases h
  | some r0 =>
    rw [hf] at h
    have h2 : (if r0.key = k ∧ r0.hasError = false then some r0 else none) = some r := h
    by_cases hc : r0.key = k ∧ r0.hasError = false
    · rw [if_pos hc] at h2
      cases h2
      exact hc.2
    · rw [if_neg hc] at h2
      cases h2

/-- C2, counterexample: the cache-consistency sentence fails as stated.  In
state pstX the cache holds the non-error result rX for tX's key and tX is
added with force unset, yet no taskComplete is emitted: an in-progress
predecessor with the same base key short-circuits the add path before the
cache is consulted, and the node is indexed for processing instead. -/
theorem c2_cache_consistency_counterexample : ¬ c2Claim := by
  intro h
  have h2 := h [] 5 pstX tX rX (by decide) (by decide) (by decide)
  exact absurd h2 (by decide)

/-- C2 (amended): when force is unset, the result cache holds a result for
the task's key, no node with the same key is indexed and no predecessor
with the same base key is indexed, the add path emits exactly one
taskComplete carrying the cached result and indexes nothing — so the task
body is never invoked, only indexed nodes being processed — and a result
returned by the cache never carries the error flag. -/
theorem c2_cache_consistency (E : List GTask) (fuel : Nat) (st : PState) (t : GTask)
    (r : TaskResultM) (hfuel : 2 ≤ fuel) (hforce : t.force = false)
    (hcache : cacheGet st.cache t.key = some r)
    (hnokey : (st.index.filter (fun n => n.key = t.key)).isEmpty = true)
    (hnopred : predecessor209 st t = none) :
    (addNode209 E fuel st t).events = st.events ++ [Ev.complete r] ∧
    (addNode209 E fuel st t).index = st.index ∧
    r.hasError = false := by
  have herr : r.hasError = false := cacheGet_no_error st.cache t.key r hcache
  cases fuel with
  | zero => exact absurd hfuel (by decide)
  | succ f =>
    cases f with
    | zero => exact absurd hfuel (by decide)
    | succ f2 =>
      have hstep : addNode209 E (Nat.succ (Nat.succ f2)) st t
          = addNodeBody209 E (Nat.succ f2) st t := by
        show (if (st.index.filter (fun n => n.key = t.key)).isEmpty = false then st
          else match predecessor209 st t with
            | some p =>
              if st.inProgress.contains p.key then { st with index := st.index ++ [t] }
              else addNodeBody209 E (Nat.succ f2) st p
            | none => addNodeBody209 E (Nat.succ f2) st t)
          = addNodeBody209 E (Nat.succ f2) st t
        rw [hnokey, if_neg (show ¬(true = false) by decide), hnopred]
      have hbody : addNodeBody209 E (Nat.succ f2) st t
          = { st with events := st.events ++ [Ev.complete r] } := by
        show (match cacheGet st.cache t.key with
          | some r0 =>
            if t.force = false ∧ r0.hasError = false
            then { st with events := st.events ++ [Ev.complete r0] }
            else depLoop209 E f2 { st with index := st.index ++ [t] }
              (t.depKeys.filterMap (fun k => E.find? (fun e => e.key = k)))
          | none => depLoop209 E f2 { st with index := st.index ++ [t] }
              (t.depKeys.filterMap (fun k => E.find? (fun e => e.key = k))))
          = { st with events := st.events ++ [Ev.complete r] }
        rw [hcache]
        show (if t.force = false ∧ r.hasError = false
          then { st with events := st.events ++ [Ev.complete r] }
          else depLoop209 E f2 { st with index := st.index ++ [t] }
            (t.depKeys.filterMap (fun k => E.find? (fun e => e.key = k))))
          = { st with events := st.events ++ [Ev.complete r] }
        rw [if_pos ⟨hforce, herr⟩]
      rw [hstep, hbody]
      exact ⟨rfl, rfl, herr⟩

/-- Witness for C2 (amended): adding tX over the empty index with rX cached
under its key emits exactly the cached taskComplete and indexes nothing. -/
theorem c2_cache_consistency_witness :
    (addNode209 [] 5 pstW tX).events = [Ev.complete rX] ∧
    (addNode209 [] 5 pstW tX).index = [] ∧ rX.hasError = false := by
  obtain ⟨h1, h2, h3⟩ := c2_cache_consistency [] 5 pstW tX rX (by decide) (by decide)
    (by decide) (by decide) (by decide)
  refine ⟨?_, h2, h3⟩
  rw [h1]
  rfl

end Garden
